import Mathlib

/-!
corrstat: empirical multivariate distributions.

A shallow embedding of `src/distribution/emv_distribution.h`,
`src/distribution/mv_distribution.h` and `src/distribution/acopula.h`, followed
by theorems about the estimators (`cdf`, `margin_cdf`), the constructor, the
table reader `read`, the cache of margin values, `export_cdf` and the
Archimedean copula `call`.

Conventions of the embedding.

* `num_t` and `vec_t` come from `types.h`, which is not part of the sources at
  hand.  `num_t` is kept as a type parameter: any linearly ordered field (the
  rationals, the reals).  `vec_t` is a `std::vector` of `num_t`, here a list.
* An access `v[i]` outside the bounds of a vector is undefined behaviour in
  C++.  Every function that indexes returns an `Option`, and `none` stands for
  a run that reached such an access.
* Counted loops `for (size_t i = 0; i < n; ++i)` become functions that take the
  number of iterations still to run and the current index.
-/

namespace cst

/-- Modelled from the spec: the type `vec_t` of `types.h`, a header that is not
among the sources: a point, "ordered sequence of reals", indexed from `0` and
with `size()` and `push_back` as the sources use them (a `std::vector`). -/
abbrev vec_t (num_t : Type) : Type := List num_t

/-- Comparison `a < b` of two points, the order `std::sort` uses.  For a
`std::vector` it is `std::lexicographical_compare` (the spec: points are
"compared ... lexicographically for ordering"): walk both ranges, the first
position where the elements differ decides, and a proper prefix is smaller. -/
def vec_lt {num_t : Type} [LinearOrderedField num_t] : vec_t num_t → vec_t num_t → Bool
  | _, [] => false
  | [], _ :: _ => true
  | a :: as, b :: bs =>
    if a < b then true
    else if b < a then false
    else vec_lt as bs

/-- Comparison `a <= b` of two points, which `std::vector` defines as `!(b < a)`. -/
def vec_le {num_t : Type} [LinearOrderedField num_t] (a b : vec_t num_t) : Bool :=
  !vec_lt b a

/-- One step of `std::sort`: put `p` in front of the first element it is
smaller than. -/
def sort_insert {num_t : Type} [LinearOrderedField num_t] (p : vec_t num_t) :
    List (vec_t num_t) → List (vec_t num_t)
  | [] => [p]
  | q :: rest => if vec_lt p q then p :: q :: rest else q :: sort_insert p rest

/-- The call `std::sort(first, last)` on a vector of points: the range is left
in ascending order for `operator<`.  The standard fixes the outcome, not the
algorithm; insertion is used here. -/
def sort {num_t : Type} [LinearOrderedField num_t] : List (vec_t num_t) → List (vec_t num_t)
  | [] => []
  | p :: rest => sort_insert p (sort rest)

/-- Modelled from the spec: the error kinds of `result.h`, a header that is not
among the sources.  The spec fixes `io_error`, "for anything related to
opening/reading/writing/parsing external data", and leaves the other kinds
open; they are gathered in `other_error`. -/
inductive error_t where
  | io_error
  | other_error
  deriving DecidableEq, Repr

/-- Modelled from the spec: the wrapper `result<T>` of `result.h`, a header that
is not among the sources: "discriminated union of `Ok(value: T)` or
`Error(message: string, kind: ErrorKind)`". -/
inductive result (T : Type) where
  | ok (value : T)
  | error (text : String) (kind : error_t)

/-- What an extraction `line_stream >> element` meets in a line once white
space is skipped: characters that convert to a number, or characters on which
the conversion fails.  A line is the list of these fields up to its end. -/
inductive field_t (num_t : Type) where
  | number (element : num_t)
  | invalid

/-- The file behind `path_to_data` as `std::getline` delivers it: its lines in
order, and whether the last line lacks the closing newline. -/
structure file_t (num_t : Type) where
  lines : List (List (field_t num_t))
  unterminated : Bool

/-- The `std::fstream stream` of `read`: what is left to extract and the two
state bits the function depends on. -/
structure fstream (num_t : Type) where
  lines : List (List (field_t num_t))
  unterminated : Bool
  eofbit : Bool
  failbit : Bool

/-- The call `std::getline(stream, line)`.  On a stream that is not `good()` the
sentry sets `failbit` and nothing is extracted.  Otherwise characters are
extracted up to the newline or the end of the file; reaching the end sets
`eofbit`, and extracting nothing at all sets `failbit` as well.  The line is
`none` when the call fails, which is what `while (std::getline(...))` tests. -/
def getline {num_t : Type} (stream : fstream num_t) :
    fstream num_t × Option (List (field_t num_t)) :=
  if stream.eofbit || stream.failbit then
    ({ stream with failbit := true }, none)
  else
    match stream.lines with
    | [] => ({ stream with eofbit := true, failbit := true }, none)
    | [line] => ({ stream with lines := [], eofbit := stream.unterminated }, some line)
    | line :: rest => ({ stream with lines := rest }, some line)

/-- The number denoted by the text that `stream << v` writes on a
`std::ofstream` in its default state, the state `export_cdf` writes in: the
sources apply no precision and no float-field manipulator, so the conversion is
`%g` with precision 6 and `v` is written rounded to 6 significant decimal
digits, to the nearest such number and to the even last digit half-way.
Stated over the rationals. -/
def default_precision (v : ℚ) : ℚ :=
  if v = 0 then 0
  else
    let scale : ℚ := 10 ^ (Int.log 10 |v| - 5)
    let q : ℚ := v / scale
    let f : ℤ := ⌊q⌋
    if q - f < 1 / 2 then f * scale
    else if 1 / 2 < q - f then (f + 1) * scale
    else if f % 2 = 0 then f * scale else (f + 1) * scale

/-- Data members of `emv_distribution_t`, those inherited from
`mv_distribution_t` (`_dim`, `_margin_cdfs_on_grid`) and `mv_distribution_i`
(`_grid`) included. -/
structure emv_distribution_t (num_t : Type) where
  _dim : Nat
  _grid : List (vec_t num_t)
  _margin_cdfs_on_grid : List (vec_t num_t)
  _sample_size : Nat
  _mv_sample : List (vec_t num_t)

namespace emv_distribution_t

variable {num_t : Type} [LinearOrderedField num_t]

/-- The constructor `emv_distribution_t(const std::vector<vec_t>& mv_sample)`.
It reads `mv_sample[0].size()`, so an empty argument is undefined behaviour
(`none`). -/
def ctor (mv_sample : List (vec_t num_t)) : Option (emv_distribution_t num_t) :=
  match mv_sample[0]? with
  | none => none
  | some first =>
    some { _dim := first.length
           _grid := []
           _margin_cdfs_on_grid := []
           _sample_size := mv_sample.length
           _mv_sample := sort mv_sample }

/-- The method `dim()`. -/
def dim (d : emv_distribution_t num_t) : Nat := d._dim

/-- The method `sample_size()`. -/
def sample_size (d : emv_distribution_t num_t) : Nat := d._sample_size

/-- The method `sample_at(i)`: `_mv_sample[i]`. -/
def sample_at (d : emv_distribution_t num_t) (i : Nat) : Option (vec_t num_t) :=
  d._mv_sample[i]?

/-- Inner loop of `cdf`, `for (k = 0; k < _dim; ++k)`, for the sample point `p`:
the value of `ok` when the loop is left.  `todo` iterations remain, the next one
at index `k`. -/
def cdf_ok (p x : vec_t num_t) : (todo : Nat) → (k : Nat) → Option Bool
  | 0, _ => some true
  | todo + 1, k =>
    match p[k]?, x[k]? with
    | some a, some b => if a > b then some false else cdf_ok p x todo (k + 1)
    | _, _ => none

/-- Outer loop of `cdf`, `for (i = 0; i < _sample_size; ++i)`: the value of
`num` when the loop is left. -/
def cdf_loop (d : emv_distribution_t num_t) (x : vec_t num_t) :
    (todo : Nat) → (i : Nat) → (num : num_t) → Option num_t
  | 0, _, num => some num
  | todo + 1, i, num =>
    match d._mv_sample[i]? with
    | none => none
    | some p =>
      match cdf_ok p x d._dim 0 with
      | none => none
      | some ok => cdf_loop d x todo (i + 1) (if ok then num + 1 else num)

/-- The method `cdf(x)`.  With `_sample_size = 0` the source computes `0 / 0`,
which is not a number: `none`. -/
def cdf (d : emv_distribution_t num_t) (x : vec_t num_t) : Option num_t :=
  match cdf_loop d x d._sample_size 0 0 with
  | none => none
  | some num => if d._sample_size = 0 then none else some (num / (d._sample_size : num_t))

/-- Loop of `margin_cdf`, `for (i = 0; i < _sample_size; ++i)`: the value of
`num` when the loop is left. -/
def margin_cdf_loop (d : emv_distribution_t num_t) (coordinate : Nat) (x : num_t) :
    (todo : Nat) → (i : Nat) → (num : num_t) → Option num_t
  | 0, _, num => some num
  | todo + 1, i, num =>
    match d._mv_sample[i]? with
    | none => none
    | some p =>
      match p[coordinate]? with
      | none => none
      | some v => margin_cdf_loop d coordinate x todo (i + 1) (if v ≤ x then num + 1 else num)

/-- The method `margin_cdf(coordinate, x)`.  The sum `_sample_size + 1` is taken
in `size_t` and then converted; it cannot wrap, a vector never holds
`SIZE_MAX` elements. -/
def margin_cdf (d : emv_distribution_t num_t) (coordinate : Nat) (x : num_t) : Option num_t :=
  match margin_cdf_loop d coordinate x d._sample_size 0 0 with
  | none => none
  | some num => some (num / ((d._sample_size + 1 : Nat) : num_t))

/-- The method `set_sample_as_grid()`: `_grid = _mv_sample`. -/
def set_sample_as_grid (d : emv_distribution_t num_t) : emv_distribution_t num_t :=
  { d with _grid := d._mv_sample }

/-- The statement `mv_sample.back().push_back(element)`. -/
def back_push_back (element : num_t) : List (vec_t num_t) → List (vec_t num_t)
  | [] => []
  | [sample] => [sample ++ [element]]
  | sample :: rest => sample :: back_push_back element rest

/-- The loop `while (line_stream >> element) sample.push_back(element);` over the
first line: it is left at the end of the line or at the first field that does
not convert. -/
def read_first_row : List (field_t num_t) → vec_t num_t → vec_t num_t
  | [], sample => sample
  | field_t.invalid :: _, sample => sample
  | field_t.number element :: rest, sample => read_first_row rest (sample ++ [element])

/-- The loop `while (line_stream >> element) { ... }` over a later line, with
the row already pushed on `mv_sample`.  It is left at the end of the line or at
the first field that does not convert, with the count `i`; or `read` returns
from inside it.  `mv_sample[0]` exists: the vector holds the row just pushed. -/
def read_row (path_to_data : String) :
    List (field_t num_t) → List (vec_t num_t) → Nat →
      Except (result (emv_distribution_t num_t)) (List (vec_t num_t) × Nat)
  | [], mv_sample, i => Except.ok (mv_sample, i)
  | field_t.invalid :: _, mv_sample, i => Except.ok (mv_sample, i)
  | field_t.number element :: rest, mv_sample, i =>
    if i < (mv_sample.headD []).length then
      read_row path_to_data rest (back_push_back element mv_sample) (i + 1)
    else
      Except.error (result.error
        (path_to_data ++ ": " ++ "Some row has more columns than the first one.")
        error_t.io_error)

/-- The loop `while (std::getline(stream, line)) { ... }`: the stream and the
rows when the loop is left, or the error `read` returns from inside it. -/
def read_rows (path_to_data : String) (stream : fstream num_t) (mv_sample : List (vec_t num_t)) :
    Except (result (emv_distribution_t num_t)) (fstream num_t × List (vec_t num_t)) :=
  match h : getline stream with
  | (stream', none) => Except.ok (stream', mv_sample)
  | (stream', some line) =>
    match read_row path_to_data line (mv_sample ++ [[]]) 0 with
    | Except.error e => Except.error e
    | Except.ok (mv_sample', i) =>
      if i < (mv_sample'.headD []).length then
        Except.error (result.error
          (path_to_data ++ ": " ++ "Some row has less columns than the first one.")
          error_t.io_error)
      else
        read_rows path_to_data stream' mv_sample'
termination_by stream.lines.length
decreasing_by
  unfold getline at h
  split at h
  · simp at h
  · split at h
    · simp at h
    · simp only [Prod.mk.injEq, Option.some.injEq] at h
      rw [← h.1]
      simp_all
    · simp only [Prod.mk.injEq, Option.some.injEq] at h
      rw [← h.1]
      simp_all

/-- The static method `read(path_to_data)`.  The file system is the function
`fs`: the content of the file, or the text of `strerror(errno)` when it cannot
be opened.  The result is `none` when the run reaches undefined behaviour (the
constructor on an empty vector of rows). -/
def read (fs : String → Except String (file_t num_t)) (path_to_data : String) :
    Option (result (emv_distribution_t num_t)) :=
  match fs path_to_data with
  | Except.error strerror =>
    some (result.error (path_to_data ++ ": " ++ strerror) error_t.io_error)
  | Except.ok file =>
    let stream : fstream num_t :=
      { lines := file.lines, unterminated := file.unterminated, eofbit := false,
        failbit := false }
    let first : fstream num_t × List (vec_t num_t) :=
      match getline stream with
      | (stream', some line) => (stream', [read_first_row line []])
      | (stream', none) => (stream', [])
    match read_rows path_to_data first.1 first.2 with
    | Except.error e => some e
    | Except.ok (stream', mv_sample) =>
      let reached_eof := stream'.eofbit
      if reached_eof then
        match ctor mv_sample with
        | none => none
        | some d => some (result.ok d)
      else
        some (result.error (path_to_data ++ ": " ++ "File contains invalid number.")
          error_t.io_error)

/-- Inner loop of `calc_margin_cdfs_on_grid`, `for (coordinate = 0; coordinate <
_dim; ++coordinate)`, for the grid index `i`: each turn assigns
`_margin_cdfs_on_grid[i][coordinate] = margin_cdf(coordinate, _grid[i][coordinate])`.
The cache is threaded through the loop; `margin_cdf` and `_grid` do not depend
on it.  A read or a write outside the bounds is `none`. -/
def calc_margin_cdfs_row (d : emv_distribution_t num_t) (i : Nat) :
    (todo : Nat) → (coordinate : Nat) → List (vec_t num_t) → Option (List (vec_t num_t))
  | 0, _, cache => some cache
  | todo + 1, coordinate, cache =>
    match d._grid[i]? with
    | none => none
    | some point =>
      match point[coordinate]? with
      | none => none
      | some x =>
        match margin_cdf d coordinate x with
        | none => none
        | some value =>
          match cache[i]? with
          | none => none
          | some row =>
            if coordinate < row.length then
              calc_margin_cdfs_row d i todo (coordinate + 1)
                (cache.set i (row.set coordinate value))
            else none

/-- Outer loop of `calc_margin_cdfs_on_grid`, `for (i = 0; i < _grid.size(); ++i)`:
each turn pushes `vec_t tmp(_dim)`, a vector of `_dim` zeros, on the cache and
runs the inner loop for `i`. -/
def calc_margin_cdfs_loop (d : emv_distribution_t num_t) :
    (todo : Nat) → (i : Nat) → List (vec_t num_t) → Option (List (vec_t num_t))
  | 0, _, cache => some cache
  | todo + 1, i, cache =>
    match calc_margin_cdfs_row d i d._dim 0 (cache ++ [List.replicate d._dim 0]) with
    | none => none
    | some cache' => calc_margin_cdfs_loop d todo (i + 1) cache'

/-- The method `calc_margin_cdfs_on_grid()`: the object with the cache the loops
leave, or `none` when an access falls outside the bounds. -/
def calc_margin_cdfs_on_grid (d : emv_distribution_t num_t) : Option (emv_distribution_t num_t) :=
  match calc_margin_cdfs_loop d d._grid.length 0 d._margin_cdfs_on_grid with
  | none => none
  | some cache => some { d with _margin_cdfs_on_grid := cache }

/-- The method `margin_cdf_on_grid(coordinate, element_num)`:
`_margin_cdfs_on_grid[element_num][coordinate]`. -/
def margin_cdf_on_grid (d : emv_distribution_t num_t) (coordinate element_num : Nat) :
    Option num_t :=
  match d._margin_cdfs_on_grid[element_num]? with
  | none => none
  | some row => row[coordinate]?

/-- Inner loop of `export_cdf`, `for (k = 0; k < _dim; ++k) stream << _grid[i][k]
<< ' ';`: the fields written on the current line.  What `operator<<` writes
for a number is decimal text, which need not denote that number: `shown v` is
the number the text written for `v` denotes.  The conversion belongs to the
C++ library and is a parameter; `default_precision` is the conversion of the
stream state the method writes in. -/
def export_cdf_row (shown : num_t → num_t) (point : vec_t num_t) :
    (todo : Nat) → (k : Nat) → List (field_t num_t) → Option (List (field_t num_t))
  | 0, _, line => some line
  | todo + 1, k, line =>
    match point[k]? with
    | none => none
    | some v => export_cdf_row shown point todo (k + 1) (line ++ [field_t.number (shown v)])

/-- Outer loop of `export_cdf`, `for (i = 0; i < _grid.size(); ++i)`: the lines
written so far; each turn ends its line with the text of `cdf(_grid[i])` and a
newline. -/
def export_cdf_loop (shown : num_t → num_t) (d : emv_distribution_t num_t) :
    (todo : Nat) → (i : Nat) → List (List (field_t num_t)) →
      Option (List (List (field_t num_t)))
  | 0, _, lines => some lines
  | todo + 1, i, lines =>
    match d._grid[i]? with
    | none => none
    | some point =>
      match export_cdf_row shown point d._dim 0 [] with
      | none => none
      | some line =>
        match cdf d point with
        | none => none
        | some v =>
          export_cdf_loop shown d todo (i + 1) (lines ++ [line ++ [field_t.number (shown v)]])

/-- The method `export_cdf(path_to_data)`.  The function `fs` tells whether the
file can be opened for writing, with the text of `strerror(errno)` when it
cannot; `shown` is the conversion of numbers to text of the stream.  The value
is the `result` returned together with the file written, every line of which
ends with a newline; `none` when an access falls outside the bounds. -/
def export_cdf (shown : num_t → num_t) (fs : String → Except String Unit)
    (d : emv_distribution_t num_t) (path_to_data : String) :
    Option (result Unit × Option (file_t num_t)) :=
  match fs path_to_data with
  | Except.error strerror =>
    some (result.error (path_to_data ++ ": " ++ strerror) error_t.io_error, none)
  | Except.ok _ =>
    match export_cdf_loop shown d d._grid.length 0 [] with
    | none => none
    | some lines => some (result.ok (), some { lines := lines, unterminated := false })

end emv_distribution_t

/-- The class `acopula_t`: the member `_dim` and the methods the class leaves to
others, the virtual `gen` and `inv_gen` of the subclasses and the `check` of the
base class `copula_t`.  The header `copula.h` is not among the sources, so
`check` is a parameter: `true` when it accepts the point and returns. -/
structure acopula_t (num_t : Type) where
  _dim : Nat
  check : vec_t num_t → Bool
  gen : num_t → num_t
  inv_gen : num_t → num_t

namespace acopula_t

variable {num_t : Type} [LinearOrderedField num_t]

/-- The loop of `call`, `for (i = 0; i < _dim; ++i) a += gen(x[i]);`: the value
of `a` when the loop is left. -/
def call_loop (c : acopula_t num_t) (x : vec_t num_t) :
    (todo : Nat) → (i : Nat) → (a : num_t) → Option num_t
  | 0, _, a => some a
  | todo + 1, i, a =>
    match x[i]? with
    | none => none
    | some xi => call_loop c x todo (i + 1) (a + c.gen xi)

/-- The method `call(x)`.  When `check(x)` rejects the point no value is
returned (`none`), as when the loop reads outside `x`. -/
def call (c : acopula_t num_t) (x : vec_t num_t) : Option num_t :=
  if c.check x then
    match call_loop c x c._dim 0 0 with
    | none => none
    | some a => some (c.inv_gen a)
  else none

end acopula_t

/-! ## Lemmas on the vector order and `sort` -/

section order

variable {num_t : Type} [LinearOrderedField num_t]

theorem vec_lt_asymm (a b : vec_t num_t) (h : vec_lt a b = true) : vec_lt b a = false := by
  induction a generalizing b with
  | nil => cases b <;> simp [vec_lt]
  | cons a as ih =>
    cases b with
    | nil => simp [vec_lt] at h
    | cons b bs =>
      rw [vec_lt] at h
      rw [vec_lt]
      by_cases h1 : a < b
      · simp [h1, not_lt.mpr h1.le]
      · by_cases h2 : b < a
        · simp [h1, h2] at h
        · simp only [h1, h2, if_false] at h ⊢
          exact ih bs h

theorem vec_lt_trans (a b c : vec_t num_t) (hab : vec_lt a b = true) (hbc : vec_lt b c = true) :
    vec_lt a c = true := by
  induction a generalizing b c with
  | nil =>
    cases c with
    | nil => cases b <;> simp [vec_lt] at hbc
    | cons c cs => simp [vec_lt]
  | cons a as ih =>
    cases b with
    | nil => simp [vec_lt] at hab
    | cons b bs =>
      cases c with
      | nil => simp [vec_lt] at hbc
      | cons c cs =>
        rw [vec_lt] at hab hbc
        rw [vec_lt]
        by_cases h1 : a < b
        · by_cases h3 : b < c
          · simp [h1.trans h3]
          · by_cases h4 : c < b
            · simp [h3, h4] at hbc
            · have : b = c := le_antisymm (not_lt.mp h4) (not_lt.mp h3)
              subst this
              simp [h1]
        · by_cases h2 : b < a
          · simp [h1, h2] at hab
          · have hab' : a = b := le_antisymm (not_lt.mp h2) (not_lt.mp h1)
            subst hab'
            simp only [h1, if_false] at hab
            by_cases h3 : a < c
            · simp [h3]
            · by_cases h4 : c < a
              · simp [h3, h4] at hbc
              · simp only [h3, h4, if_false] at hbc ⊢
                exact ih bs cs hab hbc

theorem sort_insert_perm (p : vec_t num_t) (L : List (vec_t num_t)) :
    (sort_insert p L).Perm (p :: L) := by
  induction L with
  | nil => simp [sort_insert]
  | cons q rest ih =>
    rw [sort_insert]
    split
    · exact List.Perm.refl _
    · exact (List.Perm.cons q ih).trans (List.Perm.swap p q rest)

theorem sort_perm (L : List (vec_t num_t)) : (sort L).Perm L := by
  induction L with
  | nil => simp [sort]
  | cons p rest ih =>
    rw [sort]
    exact (sort_insert_perm p (sort rest)).trans (List.Perm.cons p ih)

theorem sort_insert_sorted (p : vec_t num_t) (L : List (vec_t num_t))
    (h : L.Pairwise (fun a b => vec_le a b = true)) :
    (sort_insert p L).Pairwise (fun a b => vec_le a b = true) := by
  induction L with
  | nil => simp [sort_insert]
  | cons q rest ih =>
    rw [sort_insert]
    rw [List.pairwise_cons] at h
    by_cases hpq : vec_lt p q = true
    · rw [if_pos hpq]
      refine List.Pairwise.cons ?_ (List.Pairwise.cons h.1 h.2)
      intro r hr
      rcases List.mem_cons.mp hr with rfl | hr
      · simp [vec_le, vec_lt_asymm _ _ hpq]
      · have hqr := h.1 r hr
        simp only [vec_le, Bool.not_eq_true'] at hqr ⊢
        by_contra hrp
        have hrp' : vec_lt r p = true := by simpa using hrp
        rw [vec_lt_trans r p q hrp' hpq] at hqr
        exact Bool.noConfusion hqr
    · rw [if_neg hpq]
      refine List.Pairwise.cons ?_ (ih h.2)
      intro r hr
      rcases List.mem_cons.mp ((sort_insert_perm p rest).subset hr) with rfl | hr
      · simpa [vec_le] using hpq
      · exact h.1 r hr

theorem sort_sorted (L : List (vec_t num_t)) :
    (sort L).Pairwise (fun a b => vec_le a b = true) := by
  induction L with
  | nil => simp [sort]
  | cons p rest ih =>
    rw [sort]
    exact sort_insert_sorted p (sort rest) ih

end order

/-! ## Lemmas on the estimators -/

namespace emv_distribution_t

variable {num_t : Type} [LinearOrderedField num_t]

theorem ctor_cons (first : vec_t num_t) (rest : List (vec_t num_t)) :
    ctor (first :: rest) = some
      { _dim := first.length, _grid := [], _margin_cdfs_on_grid := [],
        _sample_size := (first :: rest).length, _mv_sample := sort (first :: rest) } := by
  simp [ctor]

theorem cdf_ok_eq (p x : vec_t num_t) (todo k : Nat)
    (hp : k + todo ≤ p.length) (hx : k + todo ≤ x.length) :
    cdf_ok p x todo k
      = some (decide (∀ j, k ≤ j → j < k + todo → p.getD j 0 ≤ x.getD j 0)) := by
  induction todo generalizing k with
  | zero =>
    rw [cdf_ok]
    congr 1
    symm
    rw [decide_eq_true_iff]
    intro j h1 h2
    omega
  | succ n ih =>
    have hk1 : k < p.length := by omega
    have hk2 : k < x.length := by omega
    rw [cdf_ok, List.getElem?_eq_getElem hk1, List.getElem?_eq_getElem hk2]
    simp only
    by_cases h : p[k] > x[k]
    · rw [if_pos h]
      congr 1
      symm
      rw [decide_eq_false_iff_not]
      intro hall
      have h3 := hall k le_rfl (by omega)
      rw [List.getD_eq_getElem _ _ hk1, List.getD_eq_getElem _ _ hk2] at h3
      exact absurd h3 (not_le.mpr h)
    · rw [if_neg h, ih (k + 1) (by omega) (by omega)]
      congr 1
      rw [decide_eq_decide]
      constructor
      · intro hall j h1 h2
        rcases Nat.eq_or_lt_of_le h1 with rfl | h4
        · rw [List.getD_eq_getElem _ _ hk1, List.getD_eq_getElem _ _ hk2]
          exact not_lt.mp h
        · exact hall j h4 (by omega)
      · intro hall j h1 h2
        exact hall j (by omega) (by omega)

theorem cdf_loop_eq (d : emv_distribution_t num_t) (x : vec_t num_t)
    (hrect : ∀ p ∈ d._mv_sample, p.length = d._dim) (hx : x.length = d._dim)
    (todo i : Nat) (num : num_t) (h : i + todo ≤ d._mv_sample.length) :
    cdf_loop d x todo i num
      = some (num + ((((d._mv_sample.drop i).take todo).countP
          (fun p => decide (∀ k, k < d._dim → p.getD k 0 ≤ x.getD k 0)) : Nat) : num_t)) := by
  induction todo generalizing i num with
  | zero => simp [cdf_loop]
  | succ n ih =>
    have hi : i < d._mv_sample.length := by omega
    have hlen : (d._mv_sample[i]).length = d._dim := hrect _ (List.getElem_mem hi)
    rw [cdf_loop, List.getElem?_eq_getElem hi]
    simp only
    rw [cdf_ok_eq _ _ _ _ (by omega) (by omega)]
    simp only
    rw [ih (i + 1) _ (by omega), List.drop_eq_getElem_cons hi, List.take_succ_cons,
      List.countP_cons]
    congr 1
    have hiff : (∀ j, 0 ≤ j → j < 0 + d._dim → (d._mv_sample[i]).getD j 0 ≤ x.getD j 0)
        ↔ (∀ k, k < d._dim → (d._mv_sample[i]).getD k 0 ≤ x.getD k 0) := by
      constructor
      · intro hall k hk
        exact hall k (Nat.zero_le k) (by omega)
      · intro hall j _ hj
        exact hall j (by omega)
    by_cases hdom : ∀ k, k < d._dim → (d._mv_sample[i]).getD k 0 ≤ x.getD k 0
    · have h1 := decide_eq_true (hiff.mpr hdom)
      have h2 := decide_eq_true hdom
      simp only [h1, h2, if_true, Nat.cast_add, Nat.cast_one]
      ring
    · have h1 := decide_eq_false (mt hiff.mp hdom)
      have h2 := decide_eq_false hdom
      simp only [h1, h2, Bool.false_eq_true, if_false, Nat.cast_add, Nat.cast_zero, add_zero]

theorem cdf_eq (d : emv_distribution_t num_t) (x : vec_t num_t)
    (hsize : d._sample_size = d._mv_sample.length) (hne : d._sample_size ≠ 0)
    (hrect : ∀ p ∈ d._mv_sample, p.length = d._dim) (hx : x.length = d._dim) :
    cdf d x
      = some (((d._mv_sample.countP
          (fun p => decide (∀ k, k < d._dim → p.getD k 0 ≤ x.getD k 0)) : Nat) : num_t)
          / (d._sample_size : num_t)) := by
  rw [cdf, cdf_loop_eq d x hrect hx _ _ _ (by omega)]
  simp only [if_neg hne, List.drop_zero, zero_add]
  rw [hsize, List.take_length]

theorem margin_cdf_loop_eq (d : emv_distribution_t num_t) (c : Nat) (x : num_t)
    (hrect : ∀ p ∈ d._mv_sample, c < p.length)
    (todo i : Nat) (num : num_t) (h : i + todo ≤ d._mv_sample.length) :
    margin_cdf_loop d c x todo i num
      = some (num + ((((d._mv_sample.drop i).take todo).countP
          (fun p => decide (p.getD c 0 ≤ x)) : Nat) : num_t)) := by
  induction todo generalizing i num with
  | zero => simp [margin_cdf_loop]
  | succ n ih =>
    have hi : i < d._mv_sample.length := by omega
    have hlen : c < (d._mv_sample[i]).length := hrect _ (List.getElem_mem hi)
    rw [margin_cdf_loop, List.getElem?_eq_getElem hi]
    simp only
    rw [List.getElem?_eq_getElem hlen]
    simp only
    rw [ih (i + 1) _ (by omega), List.drop_eq_getElem_cons hi, List.take_succ_cons,
      List.countP_cons, List.getD_eq_getElem _ _ hlen]
    congr 1
    by_cases hle : (d._mv_sample[i])[c] ≤ x
    · have h1 := decide_eq_true hle
      simp only [h1, if_pos hle, if_true, Nat.cast_add, Nat.cast_one]
      ring
    · have h1 := decide_eq_false hle
      simp only [h1, if_neg hle, Bool.false_eq_true, if_false, Nat.cast_add, Nat.cast_zero,
        add_zero]

theorem margin_cdf_eq (d : emv_distribution_t num_t) (c : Nat) (x : num_t)
    (hsize : d._sample_size = d._mv_sample.length)
    (hrect : ∀ p ∈ d._mv_sample, c < p.length) :
    margin_cdf d c x
      = some (((d._mv_sample.countP (fun p => decide (p.getD c 0 ≤ x)) : Nat) : num_t)
          / ((d._sample_size : num_t) + 1)) := by
  rw [margin_cdf, margin_cdf_loop_eq d c x hrect _ _ _ (by omega)]
  simp only [List.drop_zero, zero_add, Nat.cast_add, Nat.cast_one]
  rw [hsize, List.take_length]

end emv_distribution_t

/-! ## The estimators: `cdf` and `margin_cdf` -/

section estimators

open emv_distribution_t

variable {num_t : Type} [LinearOrderedField num_t]

theorem ctor_of_ne_nil (S : List (vec_t num_t)) (dim : Nat) (hS : S ≠ [])
    (hrect : ∀ p ∈ S, p.length = dim) :
    ∃ d, ctor S = some d ∧ d._dim = dim ∧ d._sample_size = S.length ∧
      d._mv_sample = sort S := by
  cases S with
  | nil => exact absurd rfl hS
  | cons first rest =>
    exact ⟨_, ctor_cons first rest, hrect first (List.mem_cons_self _ _), rfl, rfl⟩

theorem ctor_cdf_eq (S : List (vec_t num_t)) (x : vec_t num_t) (dim : Nat)
    (hS : S ≠ []) (hrect : ∀ p ∈ S, p.length = dim) (hx : x.length = dim) :
    ∃ d, ctor S = some d ∧ d.dim = dim ∧ d.sample_size = S.length ∧
      cdf d x = some (((S.countP
        (fun p => decide (∀ k, k < dim → p.getD k 0 ≤ x.getD k 0)) : Nat) : num_t)
          / (S.length : num_t)) := by
  obtain ⟨d, hd, hdim, hsize, hsample⟩ := ctor_of_ne_nil S dim hS hrect
  have hperm : d._mv_sample.Perm S := hsample ▸ sort_perm S
  refine ⟨d, hd, hdim, hsize, ?_⟩
  have hlen : d._sample_size = d._mv_sample.length := by rw [hsize, hperm.length_eq]
  have hne : d._sample_size ≠ 0 := by
    rw [hsize]
    exact fun h => hS (List.length_eq_zero.mp h)
  rw [cdf_eq d x hlen hne (fun p hp => (hrect p (hperm.subset hp)).trans hdim.symm)
    (hx.trans hdim.symm), hdim, hsize, hperm.countP_eq]

theorem ctor_margin_cdf_eq (S : List (vec_t num_t)) (c : Nat) (x : num_t)
    (dim : Nat) (hS : S ≠ []) (hrect : ∀ p ∈ S, p.length = dim) (hc : c < dim) :
    ∃ d, ctor S = some d ∧ d.dim = dim ∧ d.sample_size = S.length ∧
      margin_cdf d c x = some (((S.countP (fun p => decide (p.getD c 0 ≤ x)) : Nat) : num_t)
          / ((S.length : num_t) + 1)) := by
  obtain ⟨d, hd, hdim, hsize, hsample⟩ := ctor_of_ne_nil S dim hS hrect
  have hperm : d._mv_sample.Perm S := hsample ▸ sort_perm S
  have hlen : d._sample_size = d._mv_sample.length := by rw [hsize, hperm.length_eq]
  have hval := margin_cdf_eq d c x hlen
    (fun p hp => by rw [hrect p (hperm.subset hp)]; exact hc)
  rw [hsize, hperm.countP_eq] at hval
  exact ⟨d, hd, hdim, hsize, hval⟩

/-- C1: for a non-empty sample `S` whose points all have length `dim` and a
point `x` of length `dim`, the distribution built from `S` answers `cdf(x)` with
the number of points `p` of `S` such that `p[k] <= x[k]` for every `k < dim`,
divided by the sample size. -/
theorem cdf_eq_dominated_count_div_size (S : List (vec_t num_t)) (x : vec_t num_t) (dim : Nat)
    (hS : S ≠ []) (hrect : ∀ p ∈ S, p.length = dim) (hx : x.length = dim) :
    ∃ d, ctor S = some d ∧ d.dim = dim ∧ d.sample_size = S.length ∧
      cdf d x = some (((S.countP
        (fun p => decide (∀ k, k < dim → p.getD k 0 ≤ x.getD k 0)) : Nat) : num_t)
          / (S.length : num_t)) :=
  ctor_cdf_eq S x dim hS hrect hx

/-- C2: for a sample `S` of `n` points, a coordinate `c < dim` and any `x`,
`margin_cdf(c, x)` is the number of points `p` of `S` with `p[c] <= x` divided
by `n + 1`; whenever that number is not zero this differs from the quotient by
`n`. -/
theorem margin_cdf_eq_count_div_succ_size (S : List (vec_t num_t)) (c : Nat) (x : num_t)
    (dim : Nat) (hS : S ≠ []) (hrect : ∀ p ∈ S, p.length = dim) (hc : c < dim) :
    ∃ d, ctor S = some d ∧ d.dim = dim ∧ d.sample_size = S.length ∧
      margin_cdf d c x = some (((S.countP (fun p => decide (p.getD c 0 ≤ x)) : Nat) : num_t)
          / ((S.length : num_t) + 1)) ∧
      (S.countP (fun p => decide (p.getD c 0 ≤ x)) ≠ 0 →
        margin_cdf d c x ≠ some (((S.countP (fun p => decide (p.getD c 0 ≤ x)) : Nat) : num_t)
          / (S.length : num_t))) := by
  obtain ⟨d, hd, hdim, hsize, hval⟩ := ctor_margin_cdf_eq S c x dim hS hrect hc
  refine ⟨d, hd, hdim, hsize, hval, ?_⟩
  intro hcount heq
  rw [hval] at heq
  have heq' := Option.some.inj heq
  have hn : (S.length : num_t) ≠ 0 :=
    Nat.cast_ne_zero.mpr (fun h => hS (List.length_eq_zero.mp h))
  have hn1 : (S.length : num_t) + 1 ≠ 0 := by positivity
  have hcnt : ((S.countP (fun p => decide (p.getD c 0 ≤ x)) : Nat) : num_t) ≠ 0 :=
    Nat.cast_ne_zero.mpr hcount
  rw [div_eq_div_iff hn1 hn] at heq'
  have h3 := mul_left_cancel₀ hcnt heq'
  linarith

/-- Witness of C1: the sample `(2,1), (1,5)` and the point `(1,5)`; one of the
two points is dominated. -/
theorem cdf_eq_dominated_count_div_size_witness :
    ∃ d : emv_distribution_t ℚ, ctor [[2, 1], [1, 5]] = some d ∧ cdf d [1, 5] = some (1 / 2) := by
  obtain ⟨d, h1, _, _, h4⟩ := cdf_eq_dominated_count_div_size [[(2 : ℚ), 1], [1, 5]] [1, 5] 2
    (by simp) (by simp) (by simp)
  refine ⟨d, h1, ?_⟩
  rw [h4]
  norm_num [List.countP_cons, Nat.forall_lt_succ]

/-- Witness of C2: the sample `(2,1), (1,5)`, coordinate `0` and `x = 1`; one
point counts, the denominator is `3`. -/
theorem margin_cdf_eq_count_div_succ_size_witness :
    ∃ d : emv_distribution_t ℚ, ctor [[2, 1], [1, 5]] = some d ∧
      margin_cdf d 0 1 = some (1 / 3) ∧ margin_cdf d 0 1 ≠ some (1 / 2) := by
  obtain ⟨d, h1, _, _, h4, h5⟩ := margin_cdf_eq_count_div_succ_size [[(2 : ℚ), 1], [1, 5]] 0 1 2
    (by simp) (by simp) (by decide)
  refine ⟨d, h1, ?_, ?_⟩
  · rw [h4]
    norm_num [List.countP_cons]
  · have h6 := h5 (by norm_num [List.countP_cons])
    intro h7
    apply h6
    rw [h7]
    norm_num [List.countP_cons]

/-- C7: for a non-empty sample and points `x`, `y` of length `dim` with
`x[k] <= y[k]` in every coordinate, `cdf(x) <= cdf(y)`. -/
theorem cdf_monotone (S : List (vec_t num_t)) (x y : vec_t num_t) (dim : Nat)
    (hS : S ≠ []) (hrect : ∀ p ∈ S, p.length = dim)
    (hx : x.length = dim) (hy : y.length = dim)
    (hxy : ∀ k, k < dim → x.getD k 0 ≤ y.getD k 0) :
    ∃ d a b, ctor S = some d ∧ cdf d x = some a ∧ cdf d y = some b ∧ a ≤ b := by
  obtain ⟨d, hd, _, _, hcx⟩ := ctor_cdf_eq S x dim hS hrect hx
  obtain ⟨d', hd', _, _, hcy⟩ := ctor_cdf_eq S y dim hS hrect hy
  have hdd : d' = d := Option.some.inj (hd'.symm.trans hd)
  subst hdd
  refine ⟨d', _, _, hd, hcx, hcy, ?_⟩
  apply div_le_div_of_nonneg_right _ (Nat.cast_nonneg _)
  apply Nat.cast_le.mpr
  apply List.countP_mono_left
  intro p _ hp
  simp only [decide_eq_true_eq] at hp ⊢
  exact fun k hk => (hp k hk).trans (hxy k hk)

/-- Witness of C7: the sample `(2,1), (1,5)` with `x = (1,5)` and `y = (2,5)`. -/
theorem cdf_monotone_witness :
    ∃ (d : emv_distribution_t ℚ) (a b : ℚ), ctor [[2, 1], [1, 5]] = some d ∧
      cdf d [1, 5] = some a ∧ cdf d [2, 5] = some b ∧ a ≤ b :=
  cdf_monotone [[(2 : ℚ), 1], [1, 5]] [1, 5] [2, 5] 2 (by simp) (by simp) (by simp) (by simp)
    (by norm_num [Nat.forall_lt_succ])

/-- C8: for a non-empty sample whose points all have length `dim`, `cdf(m) = 1`
when `m[k]` is the maximum of the `k`-th coordinates over the sample. -/
theorem cdf_max_over_sample (S : List (vec_t num_t)) (m : vec_t num_t) (dim : Nat)
    (hS : S ≠ []) (hrect : ∀ p ∈ S, p.length = dim) (hm : m.length = dim)
    (hmax : ∀ k, k < dim → IsGreatest {v | ∃ p ∈ S, p.getD k 0 = v} (m.getD k 0)) :
    ∃ d, ctor S = some d ∧ cdf d m = some 1 := by
  obtain ⟨d, hd, _, _, hcm⟩ := ctor_cdf_eq S m dim hS hrect hm
  refine ⟨d, hd, ?_⟩
  have hall : S.countP (fun p => decide (∀ k, k < dim → p.getD k 0 ≤ m.getD k 0)) = S.length := by
    rw [List.countP_eq_length]
    intro p hp
    simp only [decide_eq_true_eq]
    exact fun k hk => (hmax k hk).2 ⟨p, hp, rfl⟩
  have hn : (S.length : num_t) ≠ 0 :=
    Nat.cast_ne_zero.mpr (fun h => hS (List.length_eq_zero.mp h))
  rw [hcm, hall, div_self hn]

/-- Witness of C8: the sample `(2,1), (1,5)`, whose coordinate-wise maximum is
`(2,5)`. -/
theorem cdf_max_over_sample_witness :
    ∃ d : emv_distribution_t ℚ, ctor [[2, 1], [1, 5]] = some d ∧ cdf d [2, 5] = some 1 :=
  cdf_max_over_sample [[(2 : ℚ), 1], [1, 5]] [2, 5] 2 (by simp) (by simp) (by simp)
    (by
      intro k hk
      have hk' : k = 0 ∨ k = 1 := by omega
      rcases hk' with rfl | rfl
      · refine ⟨⟨[2, 1], by simp, by simp⟩, ?_⟩
        rintro v ⟨p, hp, rfl⟩
        simp only [List.mem_cons, List.mem_singleton, List.not_mem_nil, or_false] at hp
        rcases hp with rfl | rfl <;> norm_num
      · refine ⟨⟨[1, 5], by simp, by simp⟩, ?_⟩
        rintro v ⟨p, hp, rfl⟩
        simp only [List.mem_cons, List.mem_singleton, List.not_mem_nil, or_false] at hp
        rcases hp with rfl | rfl <;> norm_num)

/-- C9: for a sample, a coordinate `c < dim` and `x <= y`,
`margin_cdf(c, x) <= margin_cdf(c, y)`. -/
theorem margin_cdf_monotone (S : List (vec_t num_t)) (c : Nat) (x y : num_t) (dim : Nat)
    (hS : S ≠ []) (hrect : ∀ p ∈ S, p.length = dim) (hc : c < dim) (hxy : x ≤ y) :
    ∃ d a b, ctor S = some d ∧ margin_cdf d c x = some a ∧ margin_cdf d c y = some b ∧
      a ≤ b := by
  obtain ⟨d, hd, _, _, hmx⟩ := ctor_margin_cdf_eq S c x dim hS hrect hc
  obtain ⟨d', hd', _, _, hmy⟩ := ctor_margin_cdf_eq S c y dim hS hrect hc
  have hdd : d' = d := Option.some.inj (hd'.symm.trans hd)
  subst hdd
  refine ⟨d', _, _, hd, hmx, hmy, ?_⟩
  apply div_le_div_of_nonneg_right _ (by positivity)
  apply Nat.cast_le.mpr
  apply List.countP_mono_left
  intro p _ hp
  simp only [decide_eq_true_eq] at hp ⊢
  exact hp.trans hxy

/-- Witness of C9: the sample `(2,1), (1,5)`, coordinate `1`, `x = 1`, `y = 3`. -/
theorem margin_cdf_monotone_witness :
    ∃ (d : emv_distribution_t ℚ) (a b : ℚ), ctor [[2, 1], [1, 5]] = some d ∧
      margin_cdf d 1 1 = some a ∧ margin_cdf d 1 3 = some b ∧ a ≤ b :=
  margin_cdf_monotone [[(2 : ℚ), 1], [1, 5]] 1 1 3 2 (by simp) (by simp) (by decide)
    (by norm_num)

/-- C10: for a non-empty sample, a coordinate `c < dim` and `x` between the
least and the greatest value of coordinate `c` over the sample,
`0 < margin_cdf(c, x) < 1`. -/
theorem margin_cdf_inside_observed_range (S : List (vec_t num_t)) (c : Nat) (x lo hi : num_t)
    (dim : Nat) (hS : S ≠ []) (hrect : ∀ p ∈ S, p.length = dim) (hc : c < dim)
    (hlo : IsLeast {v | ∃ p ∈ S, p.getD c 0 = v} lo)
    (_hhi : IsGreatest {v | ∃ p ∈ S, p.getD c 0 = v} hi)
    (hlox : lo ≤ x) (_hxhi : x ≤ hi) :
    ∃ d v, ctor S = some d ∧ margin_cdf d c x = some v ∧ 0 < v ∧ v < 1 := by
  obtain ⟨d, hd, _, _, hmx⟩ := ctor_margin_cdf_eq S c x dim hS hrect hc
  refine ⟨d, _, hd, hmx, ?_, ?_⟩
  · apply div_pos _ (by positivity)
    apply Nat.cast_pos.mpr
    rw [List.countP_pos_iff]
    obtain ⟨p, hp, hpv⟩ := hlo.1
    exact ⟨p, hp, decide_eq_true (hpv.le.trans hlox)⟩
  · rw [div_lt_one (by positivity)]
    have hle : S.countP (fun p => decide (p.getD c 0 ≤ x)) ≤ S.length := List.countP_le_length _
    have hle' : ((S.countP (fun p => decide (p.getD c 0 ≤ x)) : Nat) : num_t) ≤ (S.length : num_t) :=
      Nat.cast_le.mpr hle
    linarith

/-- Witness of C10: the sample `(2,1), (1,5)`, coordinate `1` with observed
range `[1, 5]`, and `x = 3`. -/
theorem margin_cdf_inside_observed_range_witness :
    ∃ (d : emv_distribution_t ℚ) (v : ℚ), ctor [[2, 1], [1, 5]] = some d ∧
      margin_cdf d 1 3 = some v ∧ 0 < v ∧ v < 1 :=
  margin_cdf_inside_observed_range [[(2 : ℚ), 1], [1, 5]] 1 3 1 5 2 (by simp) (by simp)
    (by decide)
    (by
      refine ⟨⟨[2, 1], by simp, by simp⟩, ?_⟩
      rintro v ⟨p, hp, rfl⟩
      simp only [List.mem_cons, List.mem_singleton, List.not_mem_nil, or_false] at hp
      rcases hp with rfl | rfl <;> norm_num)
    (by
      refine ⟨⟨[1, 5], by simp, by simp⟩, ?_⟩
      rintro v ⟨p, hp, rfl⟩
      simp only [List.mem_cons, List.mem_singleton, List.not_mem_nil, or_false] at hp
      rcases hp with rfl | rfl <;> norm_num)
    (by norm_num) (by norm_num)

/-- C6: the distribution constructed from a non-empty sample has `dim()` equal
to the length of the first input point and `sample_size()` equal to the number
of input points; the points read by `sample_at(0), ..., sample_at(n-1)` are a
permutation of the input, and `sample_at(i) <= sample_at(i+1)` in the
lexicographic order for every `i + 1 < n`. -/
theorem ctor_sorted_permutation (S : List (vec_t num_t)) (hS : S ≠ []) :
    ∃ d, ctor S = some d ∧ d.dim = (S.head hS).length ∧ d.sample_size = S.length ∧
      (∃ L : List (vec_t num_t), L.Perm S ∧ L.length = d.sample_size ∧
        ∀ i, i < d.sample_size → sample_at d i = L[i]?) ∧
      (∀ i, i + 1 < d.sample_size →
        ∃ a b, sample_at d i = some a ∧ sample_at d (i + 1) = some b ∧ vec_le a b = true) := by
  cases S with
  | nil => exact absurd rfl hS
  | cons first rest =>
    refine ⟨_, ctor_cons first rest, rfl, rfl, ?_, ?_⟩
    · exact ⟨sort (first :: rest), sort_perm _, (sort_perm _).length_eq, fun i _ => rfl⟩
    · intro i hi
      have hlen : (sort (first :: rest)).length = (first :: rest).length := (sort_perm _).length_eq
      have hi' : i + 1 < (sort (first :: rest)).length := by
        rw [hlen]
        exact hi
      have hi0 : i < (sort (first :: rest)).length := by omega
      refine ⟨(sort (first :: rest))[i], (sort (first :: rest))[i + 1], ?_, ?_, ?_⟩
      · exact List.getElem?_eq_getElem hi0
      · exact List.getElem?_eq_getElem hi'
      · exact List.pairwise_iff_getElem.mp (sort_sorted (first :: rest)) i (i + 1) hi0 hi'
          (Nat.lt_succ_self i)

/-- Witness of C6: the sample `(2,1), (1,5), (1,2)` is stored as
`(1,2), (1,5), (2,1)`. -/
theorem ctor_sorted_permutation_witness :
    ∃ d : emv_distribution_t ℚ, ctor [[2, 1], [1, 5], [1, 2]] = some d ∧
      d.dim = 2 ∧ d.sample_size = 3 ∧
      sample_at d 0 = some [1, 2] ∧ sample_at d 1 = some [1, 5] ∧ sample_at d 2 = some [2, 1] := by
  obtain ⟨d, h1, h2, h3, _, _⟩ :=
    ctor_sorted_permutation [[(2 : ℚ), 1], [1, 5], [1, 2]] (by simp)
  refine ⟨d, h1, h2, h3, ?_⟩
  have hd : d = { _dim := 2, _grid := [], _margin_cdfs_on_grid := [], _sample_size := 3,
                  _mv_sample := [[1, 2], [1, 5], [2, 1]] } := by
    apply Option.some.inj
    rw [← h1]
    norm_num [ctor, sort, sort_insert, vec_lt]
  subst hd
  simp [sample_at]

end estimators

/-! ## Lemmas on the reader -/

section reader_lemmas

open emv_distribution_t

variable {num_t : Type}

theorem getline_nil (stream : fstream num_t) (hfail : stream.failbit = false)
    (hlines : stream.lines = []) :
    ∃ stream', getline stream = (stream', none) ∧ stream'.eofbit = true := by
  unfold getline
  by_cases heof : stream.eofbit = true
  · simp [heof]
  · simp [heof, hfail, hlines]

theorem getline_cons (stream : fstream num_t) (line : List (field_t num_t))
    (rest : List (List (field_t num_t)))
    (hfail : stream.failbit = false) (heof : stream.eofbit = false)
    (hlines : stream.lines = line :: rest) :
    ∃ stream', getline stream = (stream', some line) ∧ stream'.lines = rest ∧
      stream'.failbit = false ∧ (stream'.eofbit = true → rest = []) := by
  unfold getline
  cases rest with
  | nil => simp [heof, hfail, hlines]
  | cons l2 rest2 => simp [heof, hfail, hlines]

theorem back_push_back_append (element : num_t) (L : List (vec_t num_t)) (sample : vec_t num_t) :
    back_push_back element (L ++ [sample]) = L ++ [sample ++ [element]] := by
  induction L with
  | nil => simp [back_push_back]
  | cons q rest ih =>
    cases rest with
    | nil => simp [back_push_back]
    | cons q2 rest2 =>
      rw [List.cons_append, List.cons_append, back_push_back, ← List.cons_append, ih]
      · simp
      · simp

theorem read_first_row_numbers (row sample : vec_t num_t) :
    read_first_row (row.map field_t.number) sample = sample ++ row := by
  induction row generalizing sample with
  | nil => simp [read_first_row]
  | cons e rest ih => simp [read_first_row, ih]

theorem read_row_numbers (path_to_data : String) (row : vec_t num_t)
    (tail : List (field_t num_t)) (htail : tail = [] ∨ ∃ t, tail = field_t.invalid :: t)
    (first : vec_t num_t) (L : List (vec_t num_t)) (sample : vec_t num_t) (i : Nat)
    (hi0 : i ≤ first.length) :
    read_row path_to_data (row.map field_t.number ++ tail) (first :: (L ++ [sample])) i
      = if i + row.length ≤ first.length then
          Except.ok (first :: (L ++ [sample ++ row]), i + row.length)
        else
          Except.error (result.error
            (path_to_data ++ ": " ++ "Some row has more columns than the first one.")
            error_t.io_error) := by
  induction row generalizing sample i with
  | nil =>
    rcases htail with rfl | ⟨t, rfl⟩
    · simp [read_row, hi0]
    · simp [read_row, hi0]
  | cons e rest ih =>
    rw [List.map_cons, List.cons_append, read_row]
    by_cases hi : i < first.length
    · have hstep : back_push_back e (first :: (L ++ [sample]))
          = first :: (L ++ [sample ++ [e]]) := by
        rw [← List.cons_append, back_push_back_append, List.cons_append]
      rw [List.headD_cons, if_pos hi, hstep, ih _ _ hi]
      have harith : i + 1 + rest.length = i + (e :: rest).length := by
        simp only [List.length_cons]
        omega
      simp only [harith, List.append_assoc, List.singleton_append]
    · have hgt : ¬ (i + (e :: rest).length ≤ first.length) := by
        simp only [List.length_cons]
        omega
      rw [List.headD_cons, if_neg hi, if_neg hgt]

theorem read_rows_end (path_to_data : String) (stream : fstream num_t)
    (mv_sample : List (vec_t num_t)) (hfail : stream.failbit = false)
    (hlines : stream.lines = []) :
    ∃ stream', read_rows path_to_data stream mv_sample = Except.ok (stream', mv_sample) ∧
      stream'.eofbit = true := by
  obtain ⟨s1, hget, heof⟩ := getline_nil stream hfail hlines
  rw [read_rows]
  split
  · next s2 heq =>
    rw [hget] at heq
    simp only [Prod.mk.injEq, and_true] at heq
    subst heq
    exact ⟨s1, rfl, heof⟩
  · next s2 line heq =>
    rw [hget] at heq
    simp at heq

theorem read_rows_row (path_to_data : String) (stream : fstream num_t) (row : vec_t num_t)
    (tail : List (field_t num_t)) (htail : tail = [] ∨ ∃ t, tail = field_t.invalid :: t)
    (rest : List (List (field_t num_t))) (first : vec_t num_t) (L : List (vec_t num_t))
    (hfail : stream.failbit = false) (heof : stream.eofbit = false)
    (hlines : stream.lines = (row.map field_t.number ++ tail) :: rest) :
    ∃ stream', stream'.lines = rest ∧ stream'.failbit = false ∧
      (stream'.eofbit = true → rest = []) ∧
      read_rows path_to_data stream (first :: L)
        = if first.length < row.length then
            Except.error (result.error
              (path_to_data ++ ": " ++ "Some row has more columns than the first one.")
              error_t.io_error)
          else if row.length < first.length then
            Except.error (result.error
              (path_to_data ++ ": " ++ "Some row has less columns than the first one.")
              error_t.io_error)
          else read_rows path_to_data stream' (first :: (L ++ [row])) := by
  obtain ⟨s1, hget, hl, hf, he⟩ := getline_cons stream _ rest hfail heof hlines
  refine ⟨s1, hl, hf, he, ?_⟩
  rw [read_rows]
  split
  · next s2 heq =>
    rw [hget] at heq
    simp at heq
  · next s2 line heq =>
    rw [hget] at heq
    simp only [Prod.mk.injEq, Option.some.injEq] at heq
    obtain ⟨h1, h2⟩ := heq
    subst h1
    subst h2
    rw [List.cons_append, read_row_numbers path_to_data row tail htail first L [] 0
      (Nat.zero_le _)]
    by_cases hmore : first.length < row.length
    · rw [if_pos hmore, if_neg (by omega)]
    · rw [if_neg hmore, if_pos (by omega)]
      simp only [List.nil_append, zero_add, List.headD_cons]

theorem read_rows_rectangular (path_to_data : String) (rows : List (vec_t num_t))
    (stream : fstream num_t) (first : vec_t num_t) (L : List (vec_t num_t))
    (hfail : stream.failbit = false) (heof : stream.eofbit = true → stream.lines = [])
    (hlines : stream.lines = rows.map (fun r => r.map field_t.number))
    (hrect : ∀ r ∈ rows, r.length = first.length) :
    ∃ stream', read_rows path_to_data stream (first :: L)
        = Except.ok (stream', first :: (L ++ rows)) ∧ stream'.eofbit = true := by
  induction rows generalizing stream L with
  | nil =>
    rw [List.append_nil]
    exact read_rows_end path_to_data stream (first :: L) hfail hlines
  | cons row rest ih =>
    have heof' : stream.eofbit = false := by
      cases hb : stream.eofbit with
      | false => rfl
      | true =>
        rw [heof hb] at hlines
        simp at hlines
    have hlines' : stream.lines
        = (row.map field_t.number ++ []) :: rest.map (fun r => r.map field_t.number) := by
      rw [hlines, List.map_cons, List.append_nil]
    obtain ⟨s1, hl, hf, he, hstep⟩ := read_rows_row path_to_data stream row [] (Or.inl rfl) _
      first L hfail heof' hlines'
    have hlen : row.length = first.length := hrect row (List.mem_cons_self _ _)
    rw [if_neg (by omega), if_neg (by omega)] at hstep
    obtain ⟨s2, hrec, he2⟩ := ih s1 (L ++ [row]) hf (fun hb => by rw [hl]; exact he hb) hl
      (fun r hr => hrect r (List.mem_cons_of_mem _ hr))
    refine ⟨s2, ?_, he2⟩
    rw [hstep, hrec, List.append_assoc, List.singleton_append]

theorem read_rows_ragged (path_to_data : String) (pre : List (vec_t num_t)) (bad : vec_t num_t)
    (post : List (List (field_t num_t)))
    (stream : fstream num_t) (first : vec_t num_t) (L : List (vec_t num_t))
    (hfail : stream.failbit = false) (heof : stream.eofbit = true → stream.lines = [])
    (hlines : stream.lines
      = pre.map (fun r => r.map field_t.number) ++ bad.map field_t.number :: post)
    (hpre : ∀ r ∈ pre, r.length = first.length) (hbad : bad.length ≠ first.length) :
    read_rows path_to_data stream (first :: L)
      = Except.error (result.error
          (path_to_data ++ ": " ++
            (if first.length < bad.length then "Some row has more columns than the first one."
             else "Some row has less columns than the first one."))
          error_t.io_error) := by
  have heof' : stream.eofbit = false := by
    cases hb : stream.eofbit with
    | false => rfl
    | true =>
      rw [heof hb] at hlines
      cases pre <;> simp at hlines
  induction pre generalizing stream L with
  | nil =>
    have hlines' : stream.lines = (bad.map field_t.number ++ []) :: post := by
      rw [hlines, List.map_nil, List.nil_append, List.append_nil]
    obtain ⟨s1, _, _, _, hstep⟩ := read_rows_row path_to_data stream bad [] (Or.inl rfl) post
      first L hfail heof' hlines'
    rw [hstep]
    by_cases hmore : first.length < bad.length
    · rw [if_pos hmore, if_pos hmore]
    · rw [if_neg hmore, if_pos (by omega), if_neg hmore]
  | cons row rest ih =>
    have hlines' : stream.lines = (row.map field_t.number ++ []) ::
        (rest.map (fun r => r.map field_t.number) ++ bad.map field_t.number :: post) := by
      rw [hlines, List.map_cons, List.append_nil, List.cons_append]
    obtain ⟨s1, hl, hf, he, hstep⟩ := read_rows_row path_to_data stream row [] (Or.inl rfl) _
      first L hfail heof' hlines'
    have hlen : row.length = first.length := hpre row (List.mem_cons_self _ _)
    rw [if_neg (by omega), if_neg (by omega)] at hstep
    rw [hstep]
    have hne : s1.eofbit = false := by
      cases hb : s1.eofbit with
      | false => rfl
      | true =>
        have h0 := he hb
        cases rest <;> simp at h0
    exact ih s1 (L ++ [row]) hf (fun hb => by rw [hne] at hb; exact Bool.noConfusion hb) hl
      (fun r hr => hpre r (List.mem_cons_of_mem _ hr)) hne

theorem getline_none_eofbit (stream stream' : fstream num_t)
    (hinv : stream.failbit = true → stream.eofbit = true)
    (h : getline stream = (stream', none)) : stream'.eofbit = true := by
  unfold getline at h
  split at h
  · next hbits =>
    simp only [Prod.mk.injEq, and_true] at h
    rw [← h]
    simp only [Bool.or_eq_true] at hbits
    rcases hbits with hb | hb
    · exact hb
    · exact hinv hb
  · split at h
    · simp only [Prod.mk.injEq, and_true] at h
      rw [← h]
    · simp at h
    · simp at h

theorem getline_some_state (stream stream' : fstream num_t) (line : List (field_t num_t))
    (h : getline stream = (stream', some line)) :
    stream'.failbit = false ∧ stream'.lines.length < stream.lines.length := by
  unfold getline at h
  split at h
  · simp at h
  · next hbits =>
    simp only [Bool.or_eq_true, not_or, Bool.not_eq_true] at hbits
    split at h
    · simp at h
    · next l hl =>
      simp only [Prod.mk.injEq, Option.some.injEq] at h
      rw [← h.1]
      simp [hbits.2, hl]
    · next l rest _ hl =>
      simp only [Prod.mk.injEq, Option.some.injEq] at h
      rw [← h.1]
      simp [hbits.2, hl]

/-- The loop over the lines is only ever left with `eofbit` set on the file
stream: a field that fails to convert puts the line stream, not the file
stream, in a failed state. -/
theorem read_rows_eofbit (path_to_data : String) (n : Nat) :
    ∀ (stream stream' : fstream num_t) (mv_sample mv_sample' : List (vec_t num_t)),
      stream.lines.length = n → (stream.failbit = true → stream.eofbit = true) →
      read_rows path_to_data stream mv_sample = Except.ok (stream', mv_sample') →
      stream'.eofbit = true := by
  induction n using Nat.strong_induction_on with
  | _ n ih =>
    intro stream stream' mv_sample mv_sample' hn hinv hres
    rw [read_rows] at hres
    split at hres
    · next s2 heq =>
      simp only [Except.ok.injEq, Prod.mk.injEq] at hres
      rw [← hres.1]
      exact getline_none_eofbit stream s2 hinv heq
    · next s2 line heq =>
      obtain ⟨hf, hlt⟩ := getline_some_state stream s2 line heq
      split at hres
      · simp at hres
      · next mv2 i _ =>
        split at hres
        · simp at hres
        · exact ih s2.lines.length (hn ▸ hlt) s2 stream' mv2 mv_sample' rfl
            (fun hb => by rw [hf] at hb; exact Bool.noConfusion hb) hres

theorem read_row_error (path_to_data : String) (line : List (field_t num_t))
    (mv_sample : List (vec_t num_t)) (i : Nat) (e : result (emv_distribution_t num_t))
    (h : read_row path_to_data line mv_sample i = Except.error e) :
    e = result.error (path_to_data ++ ": " ++ "Some row has more columns than the first one.")
      error_t.io_error := by
  induction line generalizing mv_sample i with
  | nil => simp [read_row] at h
  | cons field rest ih =>
    cases field with
    | invalid => simp [read_row] at h
    | number element =>
      rw [read_row] at h
      split at h
      · exact ih _ _ h
      · simp only [Except.error.injEq] at h
        exact h.symm

/-- The loop over the lines returns from inside with one of the two errors on
the number of columns, and with no other. -/
theorem read_rows_error (path_to_data : String) (n : Nat) :
    ∀ (stream : fstream num_t) (mv_sample : List (vec_t num_t))
      (e : result (emv_distribution_t num_t)),
      stream.lines.length = n →
      read_rows path_to_data stream mv_sample = Except.error e →
      e = result.error
          (path_to_data ++ ": " ++ "Some row has more columns than the first one.")
          error_t.io_error ∨
      e = result.error
          (path_to_data ++ ": " ++ "Some row has less columns than the first one.")
          error_t.io_error := by
  induction n using Nat.strong_induction_on with
  | _ n ih =>
    intro stream mv_sample e hn hres
    rw [read_rows] at hres
    split at hres
    · simp at hres
    · next s2 line heq =>
      obtain ⟨_, hlt⟩ := getline_some_state stream s2 line heq
      split at hres
      · next e2 hrow =>
        simp only [Except.error.injEq] at hres
        rw [← hres]
        exact Or.inl (read_row_error path_to_data line _ 0 e2 hrow)
      · next mv2 i _ =>
        split at hres
        · simp only [Except.error.injEq] at hres
          exact Or.inr hres.symm
        · exact ih s2.lines.length (hn ▸ hlt) s2 mv2 e rfl hres

end reader_lemmas

/-! ## The reader `read` -/

section reader

open emv_distribution_t

variable {num_t : Type} [LinearOrderedField num_t]

/-- C3: on a rectangular table (at least one row, each of the `r` rows made of
exactly `w >= 1` numeric fields) `read` succeeds, and the distribution it
returns has `sample_size() = r` and `dim() = w`; it is the distribution
constructed from the rows. -/
theorem read_rectangular_table (fs : String → Except String (file_t num_t))
    (path_to_data : String) (file : file_t num_t) (rows : List (vec_t num_t)) (w : Nat)
    (hfs : fs path_to_data = Except.ok file)
    (hlines : file.lines = rows.map (fun r => r.map field_t.number))
    (hrows : rows ≠ []) (_hw : 1 ≤ w) (hrect : ∀ r ∈ rows, r.length = w) :
    ∃ d, emv_distribution_t.read fs path_to_data = some (result.ok d) ∧
      d.sample_size = rows.length ∧ d.dim = w ∧ ctor rows = some d := by
  cases rows with
  | nil => exact absurd rfl hrows
  | cons first rest =>
    have hw0 : first.length = w := hrect first (List.mem_cons_self _ _)
    obtain ⟨s1, hget, hl, hf, he⟩ := getline_cons
      ({ lines := file.lines, unterminated := file.unterminated, eofbit := false,
         failbit := false } : fstream num_t) (first.map field_t.number)
      (rest.map (fun r => r.map field_t.number)) rfl rfl (by rw [hlines, List.map_cons])
    obtain ⟨s2, hrec, he2⟩ := read_rows_rectangular path_to_data rest s1 first [] hf
      (fun hb => by rw [hl]; exact he hb) hl
      (fun r hr => (hrect r (List.mem_cons_of_mem _ hr)).trans hw0.symm)
    refine ⟨_, ?_, ?_, ?_, ctor_cons first rest⟩
    · simp only [emv_distribution_t.read, hfs, hget, read_first_row_numbers, List.nil_append,
        hrec, he2, if_true, ctor_cons]
    · rfl
    · exact hw0

/-- Witness of C3: the table with the rows `3 4` and `1 2`. -/
theorem read_rectangular_table_witness :
    ∃ d : emv_distribution_t ℚ,
      emv_distribution_t.read
        (fun _ => Except.ok
          { lines := [[field_t.number (3 : ℚ), field_t.number 4],
                      [field_t.number 1, field_t.number 2]],
            unterminated := false }) "data.txt" = some (result.ok d) ∧
      d.sample_size = 2 ∧ d.dim = 2 ∧ ctor [[(3 : ℚ), 4], [1, 2]] = some d :=
  read_rectangular_table
    (fun _ => Except.ok
      { lines := [[field_t.number (3 : ℚ), field_t.number 4],
                  [field_t.number 1, field_t.number 2]],
        unterminated := false })
    "data.txt" _ [[3, 4], [1, 2]] 2 rfl rfl (by simp) (by decide) (by simp)

/-- C4: in a table of numeric rows whose first row has `first.length` fields,
let `bad` be the first later row with another number of fields.  Then `read`
returns an error of kind `io_error`, whose text names "more columns than the
first one" when `bad` is longer than the first row and "less columns than the
first one" when it is shorter.  The rows `post` after `bad` are arbitrary and do
not appear in the result. -/
theorem read_ragged_table (fs : String → Except String (file_t num_t))
    (path_to_data : String) (file : file_t num_t) (first : vec_t num_t)
    (pre : List (vec_t num_t)) (bad : vec_t num_t) (post : List (List (field_t num_t)))
    (hfs : fs path_to_data = Except.ok file)
    (hlines : file.lines = first.map field_t.number ::
      (pre.map (fun r => r.map field_t.number) ++ bad.map field_t.number :: post))
    (hpre : ∀ r ∈ pre, r.length = first.length) (hbad : bad.length ≠ first.length) :
    emv_distribution_t.read fs path_to_data
      = some (result.error
          (path_to_data ++ ": " ++
            (if first.length < bad.length then "Some row has more columns than the first one."
             else "Some row has less columns than the first one."))
          error_t.io_error) := by
  obtain ⟨s1, hget, hl, hf, he⟩ := getline_cons
    ({ lines := file.lines, unterminated := file.unterminated, eofbit := false,
       failbit := false } : fstream num_t) (first.map field_t.number) _ rfl rfl hlines
  have hrec := read_rows_ragged path_to_data pre bad post s1 first [] hf
    (fun hb => by
      have h0 := he hb
      cases pre <;> simp at h0) hl hpre hbad
  simp only [emv_distribution_t.read, hfs, hget, read_first_row_numbers, List.nil_append, hrec]

/-- Witness of C4: after the first row `1 2`, the row `3` is one field short and
the row `3 4 5` has one field too many; the last row is not looked at. -/
theorem read_ragged_table_witness :
    emv_distribution_t.read
        (fun _ => Except.ok
          { lines := [[field_t.number (1 : ℚ), field_t.number 2], [field_t.number 3],
                      [field_t.invalid]],
            unterminated := false }) "data.txt"
      = some (result.error "data.txt: Some row has less columns than the first one."
          error_t.io_error) ∧
    emv_distribution_t.read
        (fun _ => Except.ok
          { lines := [[field_t.number (1 : ℚ), field_t.number 2],
                      [field_t.number 3, field_t.number 4, field_t.number 5],
                      [field_t.invalid]],
            unterminated := false }) "data.txt"
      = some (result.error "data.txt: Some row has more columns than the first one."
          error_t.io_error) :=
  ⟨read_ragged_table
      (fun _ => Except.ok
        { lines := [[field_t.number (1 : ℚ), field_t.number 2], [field_t.number 3],
                    [field_t.invalid]],
          unterminated := false })
      "data.txt" _ [1, 2] [] [3] [[field_t.invalid]] rfl rfl (by simp) (by decide),
   read_ragged_table
      (fun _ => Except.ok
        { lines := [[field_t.number (1 : ℚ), field_t.number 2],
                    [field_t.number 3, field_t.number 4, field_t.number 5],
                    [field_t.invalid]],
          unterminated := false })
      "data.txt" _ [1, 2] [] [3, 4, 5] [[field_t.invalid]] rfl rfl (by simp) (by decide)⟩

/-- C5, the code at a failing input: the table with the rows `1 2` and
`3 4 abc`, where `abc` does not convert to a number.  The extraction loop over
the second row stops at `abc` with two fields read, the file stream itself
reaches its end, and `read` returns the distribution of the sample
`(1,2), (3,4)` instead of an error. -/
theorem read_accepts_invalid_number :
    emv_distribution_t.read
        (fun _ => Except.ok
          { lines := [[field_t.number (1 : ℚ), field_t.number 2],
                      [field_t.number 3, field_t.number 4, field_t.invalid]],
            unterminated := false }) "data.txt"
      = some (result.ok
          { _dim := 2, _grid := [], _margin_cdfs_on_grid := [], _sample_size := 2,
            _mv_sample := [[1, 2], [3, 4]] }) := by
  simp [emv_distribution_t.read, getline, read_rows, read_row, read_first_row,
    back_push_back, ctor, sort, sort_insert, vec_lt]

/-- For a file that opens, `read` has four outcomes: undefined behaviour (the
constructor on no rows at all), a distribution, or one of the two errors on the
number of columns.  The state `reached_eof` tested at the end is always true,
and the error "File contains invalid number." is never returned. -/
theorem read_outcomes (fs : String → Except String (file_t num_t)) (path_to_data : String)
    (file : file_t num_t) (hfs : fs path_to_data = Except.ok file) :
    emv_distribution_t.read fs path_to_data = none ∨
    (∃ d, emv_distribution_t.read fs path_to_data = some (result.ok d)) ∨
    emv_distribution_t.read fs path_to_data = some (result.error
      (path_to_data ++ ": " ++ "Some row has more columns than the first one.")
      error_t.io_error) ∨
    emv_distribution_t.read fs path_to_data = some (result.error
      (path_to_data ++ ": " ++ "Some row has less columns than the first one.")
      error_t.io_error) := by
  have key : ∀ (stream : fstream num_t) (mv_sample : List (vec_t num_t)),
      (stream.failbit = true → stream.eofbit = true) →
      emv_distribution_t.read fs path_to_data
        = (match read_rows path_to_data stream mv_sample with
          | Except.error e => some e
          | Except.ok (stream', mv_sample') =>
            if stream'.eofbit = true then
              match ctor mv_sample' with
              | none => none
              | some d => some (result.ok d)
            else
              some (result.error (path_to_data ++ ": " ++ "File contains invalid number.")
                error_t.io_error)) →
      emv_distribution_t.read fs path_to_data = none ∨
      (∃ d, emv_distribution_t.read fs path_to_data = some (result.ok d)) ∨
      emv_distribution_t.read fs path_to_data = some (result.error
        (path_to_data ++ ": " ++ "Some row has more columns than the first one.")
        error_t.io_error) ∨
      emv_distribution_t.read fs path_to_data = some (result.error
        (path_to_data ++ ": " ++ "Some row has less columns than the first one.")
        error_t.io_error) := by
    intro stream mv_sample hinv hread
    cases hrows : read_rows path_to_data stream mv_sample with
    | error e =>
      rw [hrows] at hread
      rcases read_rows_error path_to_data _ stream mv_sample e rfl hrows with he | he
      · exact Or.inr (Or.inr (Or.inl (by rw [hread, he])))
      · exact Or.inr (Or.inr (Or.inr (by rw [hread, he])))
    | ok res =>
      obtain ⟨stream', mv_sample'⟩ := res
      have he := read_rows_eofbit path_to_data _ stream stream' mv_sample mv_sample' rfl hinv
        hrows
      rw [hrows] at hread
      simp only [he, if_true] at hread
      cases hctor : ctor mv_sample' with
      | none =>
        rw [hctor] at hread
        exact Or.inl hread
      | some d =>
        rw [hctor] at hread
        exact Or.inr (Or.inl ⟨d, hread⟩)
  have hex : ∃ s1 line, getline
      ({ lines := file.lines, unterminated := file.unterminated, eofbit := false,
         failbit := false } : fstream num_t) = (s1, line) := ⟨_, _, rfl⟩
  obtain ⟨s1, line, hget⟩ := hex
  cases line with
  | none =>
    apply key s1 []
    · intro _
      exact getline_none_eofbit _ s1 (fun hb => Bool.noConfusion hb) hget
    · simp only [emv_distribution_t.read, hfs, hget]
  | some line =>
    apply key s1 [read_first_row line []]
    · intro hb
      rw [(getline_some_state _ s1 line hget).1] at hb
      exact Bool.noConfusion hb
    · simp only [emv_distribution_t.read, hfs, hget]

end reader

/-! ## The range of `margin_cdf` -/

section margin_range

open emv_distribution_t

variable {num_t : Type} [LinearOrderedField num_t]

/-- C11: for a sample of `n` points, a coordinate `c < dim` and an `x` that is
greater than or equal to every sample value at coordinate `c`,
`margin_cdf(c, x) = n / (n + 1)`. -/
theorem margin_cdf_above_sample (S : List (vec_t num_t)) (c : Nat) (x : num_t) (dim : Nat)
    (hS : S ≠ []) (hrect : ∀ p ∈ S, p.length = dim) (hc : c < dim)
    (hx : ∀ p ∈ S, p.getD c 0 ≤ x) :
    ∃ d, ctor S = some d ∧ d.sample_size = S.length ∧
      margin_cdf d c x = some ((S.length : num_t) / ((S.length : num_t) + 1)) := by
  obtain ⟨d, hd, _, hsize, hval⟩ := ctor_margin_cdf_eq S c x dim hS hrect hc
  refine ⟨d, hd, hsize, ?_⟩
  have hall : S.countP (fun p => decide (p.getD c 0 ≤ x)) = S.length := by
    rw [List.countP_eq_length]
    intro p hp
    exact decide_eq_true (hx p hp)
  rw [hval, hall]

/-- Witness of C11: the sample `(2,1), (1,5)`, coordinate `0` and `x = 2`:
`margin_cdf(0, 2) = 2 / 3`. -/
theorem margin_cdf_above_sample_witness :
    ∃ d : emv_distribution_t ℚ, ctor [[2, 1], [1, 5]] = some d ∧
      margin_cdf d 0 2 = some (2 / 3) := by
  obtain ⟨d, h1, _, h3⟩ := margin_cdf_above_sample [[(2 : ℚ), 1], [1, 5]] 0 2 2
    (by simp) (by simp) (by decide)
    (by
      intro p hp
      simp only [List.mem_cons, List.mem_singleton, List.not_mem_nil, or_false] at hp
      rcases hp with rfl | rfl <;> norm_num)
  refine ⟨d, h1, ?_⟩
  rw [h3]
  norm_num

/-- C12 fails as stated: for the sample `(2,1), (1,5)`, coordinate `0` and
`x = 0`, below every sample value, `margin_cdf(0, 0)` is exactly `0`. -/
theorem margin_cdf_below_sample_is_zero :
    ∃ d : emv_distribution_t ℚ, ctor [[2, 1], [1, 5]] = some d ∧
      margin_cdf d 0 0 = some 0 ∧
      ¬ ∃ v : ℚ, margin_cdf d 0 0 = some v ∧ 0 < v ∧ v < 1 := by
  have hd : ctor [[(2 : ℚ), 1], [1, 5]] = some
      { _dim := 2, _grid := [], _margin_cdfs_on_grid := [], _sample_size := 2,
        _mv_sample := [[1, 5], [2, 1]] } := by
    norm_num [ctor, sort, sort_insert, vec_lt]
  have hv : margin_cdf
      ({ _dim := 2, _grid := [], _margin_cdfs_on_grid := [], _sample_size := 2,
         _mv_sample := [[1, 5], [2, 1]] } : emv_distribution_t ℚ) 0 0 = some 0 := by
    norm_num [margin_cdf, margin_cdf_loop]
  refine ⟨_, hd, hv, ?_⟩
  rintro ⟨v, h1, h2, _⟩
  rw [hv] at h1
  have h3 : (0 : ℚ) = v := Option.some.inj h1
  rw [← h3] at h2
  exact lt_irrefl _ h2

/-- C12 as amended: for a non-empty sample, a coordinate `c < dim` and any `x`,
`margin_cdf(c, x)` lies in `[0, 1)`: it is never `1`, and it is `0` exactly when
`x` is below every sample value at coordinate `c`. -/
theorem margin_cdf_range (S : List (vec_t num_t)) (c : Nat) (x : num_t) (dim : Nat)
    (hS : S ≠ []) (hrect : ∀ p ∈ S, p.length = dim) (hc : c < dim) :
    ∃ d v, ctor S = some d ∧ margin_cdf d c x = some v ∧ 0 ≤ v ∧ v < 1 ∧
      (v = 0 ↔ ∀ p ∈ S, x < p.getD c 0) := by
  obtain ⟨d, hd, _, _, hval⟩ := ctor_margin_cdf_eq S c x dim hS hrect hc
  have hpos : (0 : num_t) < (S.length : num_t) + 1 := by positivity
  refine ⟨d, _, hd, hval, ?_, ?_, ?_⟩
  · exact div_nonneg (Nat.cast_nonneg _) hpos.le
  · rw [div_lt_one hpos]
    have hle : ((S.countP (fun p => decide (p.getD c 0 ≤ x)) : Nat) : num_t)
        ≤ (S.length : num_t) := Nat.cast_le.mpr (List.countP_le_length _)
    linarith
  · rw [div_eq_zero_iff, Nat.cast_eq_zero, List.countP_eq_zero]
    constructor
    · rintro (h | h)
      · intro p hp
        have h1 := h p hp
        simpa using h1
      · exact absurd h hpos.ne'
    · intro h
      left
      intro p hp
      simpa using h p hp

/-- Witness of C12 as amended: the sample `(2,1), (1,5)`, coordinate `0`, `x = 0`. -/
theorem margin_cdf_range_witness :
    ∃ (d : emv_distribution_t ℚ) (v : ℚ), ctor [[2, 1], [1, 5]] = some d ∧
      margin_cdf d 0 0 = some v ∧ 0 ≤ v ∧ v < 1 ∧
      (v = 0 ↔ ∀ p ∈ [[(2 : ℚ), 1], [1, 5]], 0 < p.getD 0 0) :=
  margin_cdf_range [[(2 : ℚ), 1], [1, 5]] 0 0 2 (by simp) (by simp) (by decide)

end margin_range

/-! ## Lemmas on the cache of margin values -/

section cache_lemmas

open emv_distribution_t

variable {num_t : Type} [LinearOrderedField num_t]

theorem margin_cdf_loop_cache (d : emv_distribution_t num_t) (cache : List (vec_t num_t))
    (c : Nat) (x : num_t) (todo i : Nat) (num : num_t) :
    margin_cdf_loop { d with _margin_cdfs_on_grid := cache } c x todo i num
      = margin_cdf_loop d c x todo i num := by
  induction todo generalizing i num with
  | zero => simp [margin_cdf_loop]
  | succ n ih =>
    rw [margin_cdf_loop, margin_cdf_loop]
    simp only [ih]

theorem margin_cdf_cache (d : emv_distribution_t num_t) (cache : List (vec_t num_t))
    (c : Nat) (x : num_t) :
    margin_cdf { d with _margin_cdfs_on_grid := cache } c x = margin_cdf d c x := by
  rw [margin_cdf, margin_cdf, margin_cdf_loop_cache]

theorem calc_margin_cdfs_row_spec (d : emv_distribution_t num_t) (i : Nat) (point : vec_t num_t)
    (hpt : d._grid[i]? = some point) (hlen : point.length = d._dim)
    (hm : ∀ k x, k < d._dim → ∃ v, margin_cdf d k x = some v)
    (todo c : Nat) (cache : List (vec_t num_t)) (row : vec_t num_t)
    (hrow : cache[i]? = some row) (hrowlen : row.length = d._dim) (hc : c + todo = d._dim) :
    ∃ cache' row', calc_margin_cdfs_row d i todo c cache = some cache' ∧
      cache'.length = cache.length ∧ (∀ j, j ≠ i → cache'[j]? = cache[j]?) ∧
      cache'[i]? = some row' ∧ row'.length = d._dim ∧
      (∀ k x, c ≤ k → point[k]? = some x → row'[k]? = margin_cdf d k x) ∧
      (∀ k, k < c → row'[k]? = row[k]?) := by
  induction todo generalizing c cache row with
  | zero =>
    refine ⟨cache, row, rfl, rfl, fun _ _ => rfl, hrow, hrowlen, ?_, fun _ _ => rfl⟩
    intro k x hk hx
    have hklt : k < point.length := (List.getElem?_eq_some.mp hx).1
    omega
  | succ n ih =>
    have hcp : c < point.length := by omega
    have hcr : c < row.length := by omega
    obtain ⟨v, hv⟩ := hm c point[c] (by omega)
    have hi : i < cache.length := (List.getElem?_eq_some.mp hrow).1
    have hrow1 : (cache.set i (row.set c v))[i]? = some (row.set c v) :=
      List.getElem?_set_self hi
    obtain ⟨cache', row', hrun, hl, hother, hrow', hlen', hval, hkeep⟩ :=
      ih (c + 1) (cache.set i (row.set c v)) (row.set c v) hrow1
        (by rw [List.length_set]; exact hrowlen) (by omega)
    refine ⟨cache', row', ?_, ?_, ?_, hrow', hlen', ?_, ?_⟩
    · rw [calc_margin_cdfs_row, hpt]
      simp only
      rw [List.getElem?_eq_getElem hcp]
      simp only
      rw [hv]
      simp only
      rw [hrow]
      simp only
      rw [if_pos hcr, hrun]
    · rw [hl, List.length_set]
    · intro j hj
      rw [hother j hj, List.getElem?_set_ne (Ne.symm hj)]
    · intro k x hk hx
      rcases Nat.eq_or_lt_of_le hk with rfl | hlt
      · rw [hkeep c (Nat.lt_succ_self c), List.getElem?_set_self hcr]
        rw [List.getElem?_eq_getElem hcp] at hx
        rw [← Option.some.inj hx, hv]
      · exact hval k x hlt hx
    · intro k hk
      rw [hkeep k (by omega), List.getElem?_set_ne (by omega)]

theorem calc_margin_cdfs_loop_spec (d : emv_distribution_t num_t)
    (hgrid : ∀ p ∈ d._grid, p.length = d._dim)
    (hm : ∀ k x, k < d._dim → ∃ v, margin_cdf d k x = some v)
    (todo i : Nat) (cache : List (vec_t num_t))
    (hi : i + todo = d._grid.length) (hicache : i ≤ cache.length)
    (hcache : ∀ j row, i ≤ j → cache[j]? = some row → row.length = d._dim) :
    ∃ cache', calc_margin_cdfs_loop d todo i cache = some cache' ∧
      cache'.length = cache.length + todo ∧
      (∀ j, j < i → cache'[j]? = cache[j]?) ∧
      (∀ j, i ≤ j → j < d._grid.length → ∃ point row, d._grid[j]? = some point ∧
        cache'[j]? = some row ∧ row.length = d._dim ∧
        ∀ k x, point[k]? = some x → row[k]? = margin_cdf d k x) ∧
      (∀ j, d._grid.length ≤ j →
        cache'[j]? = (cache ++ List.replicate todo (List.replicate d._dim 0))[j]?) := by
  induction todo generalizing i cache with
  | zero =>
    refine ⟨cache, rfl, rfl, fun _ _ => rfl, ?_, ?_⟩
    · intro j h1 h2
      omega
    · intro j _
      rw [List.replicate_zero, List.append_nil]
  | succ n ih =>
    have hilt : i < d._grid.length := by omega
    have hpt : d._grid[i]? = some d._grid[i] := List.getElem?_eq_getElem hilt
    have hptlen : (d._grid[i]).length = d._dim := hgrid _ (List.getElem_mem hilt)
    have hrow0 : ∃ row0, (cache ++ [List.replicate d._dim (0 : num_t)])[i]? = some row0 ∧
        row0.length = d._dim := by
      rcases Nat.lt_or_ge i cache.length with h | h
      · rw [List.getElem?_append_left h, List.getElem?_eq_getElem h]
        exact ⟨_, rfl, hcache i _ le_rfl (List.getElem?_eq_getElem h)⟩
      · have hieq : i = cache.length := le_antisymm hicache h
        rw [List.getElem?_append_right h, hieq, Nat.sub_self]
        exact ⟨_, rfl, List.length_replicate _ _⟩
    obtain ⟨row0, hrow0, hrow0len⟩ := hrow0
    obtain ⟨cache1, row1, hrun1, hl1, hother1, hrow1, hrow1len, hval1, _⟩ :=
      calc_margin_cdfs_row_spec d i _ hpt hptlen hm d._dim 0
        (cache ++ [List.replicate d._dim 0]) row0 hrow0 hrow0len (Nat.zero_add _)
    have hl1' : cache1.length = cache.length + 1 := by
      rw [hl1, List.length_append, List.length_singleton]
    have hcache1 : ∀ j row, i + 1 ≤ j → cache1[j]? = some row → row.length = d._dim := by
      intro j row hj hjrow
      rw [hother1 j (by omega)] at hjrow
      rcases Nat.lt_or_ge j cache.length with h | h
      · rw [List.getElem?_append_left h] at hjrow
        exact hcache j row (by omega) hjrow
      · rw [List.getElem?_append_right h] at hjrow
        have hmem : row ∈ [List.replicate d._dim (0 : num_t)] :=
          List.mem_iff_getElem?.mpr ⟨_, hjrow⟩
        rw [List.mem_singleton.mp hmem]
        exact List.length_replicate _ _
    obtain ⟨cache', hrun, hl, hlow, hmid, hhigh⟩ :=
      ih (i + 1) cache1 (by omega) (by omega) hcache1
    refine ⟨cache', ?_, ?_, ?_, ?_, ?_⟩
    · rw [calc_margin_cdfs_loop, hrun1]
      exact hrun
    · omega
    · intro j hj
      rw [hlow j (by omega), hother1 j (by omega), List.getElem?_append_left (by omega)]
    · intro j hj1 hj2
      rcases Nat.eq_or_lt_of_le hj1 with rfl | hlt
      · refine ⟨_, row1, hpt, ?_, hrow1len, ?_⟩
        · rw [hlow i (Nat.lt_succ_self i)]
          exact hrow1
        · intro k x hx
          exact hval1 k x (Nat.zero_le k) hx
      · exact hmid j hlt hj2
    · intro j hj
      have hR : cache ++ List.replicate (n + 1) (List.replicate d._dim (0 : num_t))
          = (cache ++ [List.replicate d._dim 0]) ++ List.replicate n (List.replicate d._dim 0) := by
        rw [List.replicate_succ, List.append_cons]
      rw [hhigh j hj, hR]
      rcases Nat.lt_or_ge j cache1.length with h | h
      · rw [List.getElem?_append_left h, List.getElem?_append_left (hl1 ▸ h),
          hother1 j (by omega)]
      · rw [List.getElem?_append_right h, List.getElem?_append_right (hl1 ▸ h), hl1]

theorem margin_cdf_defined (d : emv_distribution_t num_t)
    (hsize : d._sample_size = d._mv_sample.length)
    (hrect : ∀ p ∈ d._mv_sample, p.length = d._dim) (k : Nat) (x : num_t) (hk : k < d._dim) :
    ∃ v, margin_cdf d k x = some v :=
  ⟨_, margin_cdf_eq d k x hsize (fun p hp => by rw [hrect p hp]; exact hk)⟩

/-- One call of `calc_margin_cdfs_on_grid` on an object whose sample and grid
are rectangular and whose cache rows have length `_dim`: the call stays inside
the bounds, adds one entry per grid point, leaves in entry `j` of the first
`_grid.size()` entries the margin values of grid point `j`, and beyond them
the cache is the old one followed by rows of zeros. -/
theorem calc_margin_cdfs_on_grid_spec (d : emv_distribution_t num_t)
    (hsize : d._sample_size = d._mv_sample.length)
    (hrect : ∀ p ∈ d._mv_sample, p.length = d._dim)
    (hgrid : ∀ p ∈ d._grid, p.length = d._dim)
    (hcache : ∀ row ∈ d._margin_cdfs_on_grid, row.length = d._dim) :
    ∃ cache', calc_margin_cdfs_on_grid d = some { d with _margin_cdfs_on_grid := cache' } ∧
      cache'.length = d._margin_cdfs_on_grid.length + d._grid.length ∧
      (∀ row ∈ cache', row.length = d._dim) ∧
      (∀ j, j < d._grid.length → ∃ point row, d._grid[j]? = some point ∧
        cache'[j]? = some row ∧ row.length = d._dim ∧
        ∀ k x, point[k]? = some x → row[k]? = margin_cdf d k x) ∧
      (∀ j, d._grid.length ≤ j → cache'[j]?
        = (d._margin_cdfs_on_grid
            ++ List.replicate d._grid.length (List.replicate d._dim 0))[j]?) := by
  obtain ⟨cache', hrun, hl, _, hmid, hhigh⟩ :=
    calc_margin_cdfs_loop_spec d hgrid (fun k x hk => margin_cdf_defined d hsize hrect k x hk)
      d._grid.length 0 d._margin_cdfs_on_grid (Nat.zero_add _) (Nat.zero_le _)
      (fun j row _ hj => hcache row (List.mem_iff_getElem?.mpr ⟨j, hj⟩))
  refine ⟨cache', ?_, hl, ?_, fun j hj => hmid j (Nat.zero_le j) hj, hhigh⟩
  · rw [calc_margin_cdfs_on_grid, hrun]
  · intro row hrow
    obtain ⟨j, hj⟩ := List.mem_iff_getElem?.mp hrow
    rcases Nat.lt_or_ge j d._grid.length with h | h
    · obtain ⟨_, row', _, hrow', hlen', _⟩ := hmid j (Nat.zero_le j) h
      rw [hrow'] at hj
      rw [← Option.some.inj hj]
      exact hlen'
    · rw [hhigh j h] at hj
      have hmem := List.mem_iff_getElem?.mpr ⟨j, hj⟩
      rcases List.mem_append.mp hmem with h1 | h1
      · exact hcache row h1
      · rw [(List.mem_replicate.mp h1).2]
        exact List.length_replicate _ _

/-- Repeated calls of `calc_margin_cdfs_on_grid`, starting from an empty cache:
after `m` calls the cache has `m` entries per grid point, and from the first
call on entry `j` of the first `_grid.size()` entries holds the margin values
of grid point `j`. -/
theorem calc_margin_cdfs_on_grid_iterate (d : emv_distribution_t num_t)
    (hsize : d._sample_size = d._mv_sample.length)
    (hrect : ∀ p ∈ d._mv_sample, p.length = d._dim)
    (hgrid : ∀ p ∈ d._grid, p.length = d._dim) (m : Nat) :
    ∃ cache, (fun o => Option.bind o calc_margin_cdfs_on_grid)^[m]
        (some { d with _margin_cdfs_on_grid := [] })
        = some { d with _margin_cdfs_on_grid := cache } ∧
      cache.length = m * d._grid.length ∧
      (∀ row ∈ cache, row.length = d._dim) ∧
      (1 ≤ m → ∀ j, j < d._grid.length → ∃ point row, d._grid[j]? = some point ∧
        cache[j]? = some row ∧ row.length = d._dim ∧
        ∀ k x, point[k]? = some x → row[k]? = margin_cdf d k x) := by
  induction m with
  | zero =>
    refine ⟨[], rfl, by simp, by simp, ?_⟩
    intro h
    omega
  | succ n ih =>
    obtain ⟨cache, hiter, hl, hrows, _⟩ := ih
    obtain ⟨cache', hcall, hl', hrows', hmid, _⟩ :=
      calc_margin_cdfs_on_grid_spec ({ d with _margin_cdfs_on_grid := cache }) hsize hrect hgrid
        hrows
    refine ⟨cache', ?_, ?_, hrows', ?_⟩
    · rw [Function.iterate_succ_apply', hiter]
      exact hcall
    · rw [hl', hl]
      simp only [Nat.succ_mul]
    · intro _ j hj
      obtain ⟨point, row, h1, h2, h3, h4⟩ := hmid j hj
      refine ⟨point, row, h1, h2, h3, ?_⟩
      intro k x hx
      rw [h4 k x hx, margin_cdf_cache]

theorem margin_cdf_loop_congr (d d' : emv_distribution_t num_t)
    (hsample : d'._mv_sample = d._mv_sample) (c : Nat) (x : num_t) (todo i : Nat) (num : num_t) :
    margin_cdf_loop d' c x todo i num = margin_cdf_loop d c x todo i num := by
  induction todo generalizing i num with
  | zero => simp [margin_cdf_loop]
  | succ n ih =>
    rw [margin_cdf_loop, margin_cdf_loop, hsample]
    simp only [ih]

theorem margin_cdf_congr (d d' : emv_distribution_t num_t)
    (hsample : d'._mv_sample = d._mv_sample) (hsize : d'._sample_size = d._sample_size)
    (c : Nat) (x : num_t) : margin_cdf d' c x = margin_cdf d c x := by
  rw [margin_cdf, margin_cdf, margin_cdf_loop_congr d d' hsample, hsize]

/-- The object constructed from a non-empty rectangular sample, after
`set_sample_as_grid()` and `m` calls of `calc_margin_cdfs_on_grid()`. -/
theorem ctor_calc_iterate (S : List (vec_t num_t)) (dim m : Nat) (hS : S ≠ [])
    (hrect : ∀ p ∈ S, p.length = dim) :
    ∃ d0 cache, ctor S = some d0 ∧ d0._dim = dim ∧ d0._sample_size = S.length ∧
      d0._mv_sample = sort S ∧ d0._margin_cdfs_on_grid = [] ∧
      (fun o => Option.bind o calc_margin_cdfs_on_grid)^[m] (some (set_sample_as_grid d0))
        = some { set_sample_as_grid d0 with _margin_cdfs_on_grid := cache } ∧
      cache.length = m * S.length ∧
      (∀ row ∈ cache, row.length = dim) ∧
      (1 ≤ m → ∀ j, j < S.length → ∃ point row, (sort S)[j]? = some point ∧
        point.length = dim ∧ cache[j]? = some row ∧ row.length = dim ∧
        ∀ k, k < dim → ∃ x v, point[k]? = some x ∧ row[k]? = some v ∧
          margin_cdf d0 k x = some v) := by
  cases S with
  | nil => exact absurd rfl hS
  | cons first rest =>
    have hdim : first.length = dim := hrect first (List.mem_cons_self _ _)
    have hperm := sort_perm (first :: rest)
    have hsize : (first :: rest).length = (sort (first :: rest)).length := hperm.length_eq.symm
    have hrect' : ∀ p ∈ sort (first :: rest), p.length = first.length :=
      fun p hp => (hrect p (hperm.subset hp)).trans hdim.symm
    obtain ⟨cache, hiter, hl, hrows, hfirst⟩ := calc_margin_cdfs_on_grid_iterate
      ({ _dim := first.length, _grid := sort (first :: rest), _margin_cdfs_on_grid := [],
         _sample_size := (first :: rest).length, _mv_sample := sort (first :: rest) } :
        emv_distribution_t num_t) hsize hrect' hrect' m
    refine ⟨_, cache, ctor_cons first rest, hdim, rfl, rfl, rfl, hiter, ?_, ?_, ?_⟩
    · rw [hl]
      exact congrArg _ hsize.symm
    · exact fun row hrow => (hrows row hrow).trans hdim
    · intro hm j hj
      obtain ⟨point, row, h1, h2, h3, h4⟩ := hfirst hm j (hsize ▸ hj)
      have hptlen : point.length = first.length :=
        hrect' point (List.mem_iff_getElem?.mpr ⟨j, h1⟩)
      refine ⟨point, row, h1, hptlen.trans hdim, h2, h3.trans hdim, ?_⟩
      intro k hk
      have hk' : k < point.length := by omega
      obtain ⟨v, hv⟩ := margin_cdf_defined
        ({ _dim := first.length, _grid := sort (first :: rest), _margin_cdfs_on_grid := [],
           _sample_size := (first :: rest).length, _mv_sample := sort (first :: rest) } :
          emv_distribution_t num_t) hsize hrect' k point[k] (hptlen ▸ hk')
      have hx : point[k]? = some point[k] := List.getElem?_eq_getElem hk'
      refine ⟨point[k], v, hx, ?_, ?_⟩
      · rw [h4 k _ hx]
        exact hv
      · rw [← hv]
        exact margin_cdf_congr
          ({ _dim := first.length, _grid := sort (first :: rest), _margin_cdfs_on_grid := [],
             _sample_size := (first :: rest).length, _mv_sample := sort (first :: rest) } :
            emv_distribution_t num_t)
          ({ _dim := first.length, _grid := [], _margin_cdfs_on_grid := [],
             _sample_size := (first :: rest).length, _mv_sample := sort (first :: rest) } :
            emv_distribution_t num_t) rfl rfl k _

theorem ctor_calc_lookup (S : List (vec_t num_t)) (dim m : Nat) (hS : S ≠ [])
    (hrect : ∀ p ∈ S, p.length = dim) (hm : 1 ≤ m) :
    ∃ d0 dm, ctor S = some d0 ∧ d0._margin_cdfs_on_grid = [] ∧
      (fun o => Option.bind o calc_margin_cdfs_on_grid)^[m] (some (set_sample_as_grid d0))
        = some dm ∧
      dm._margin_cdfs_on_grid.length = m * S.length ∧
      (∀ row ∈ dm._margin_cdfs_on_grid, row.length = dim) ∧
      ∀ i k, i < S.length → k < dim → ∃ point x v, sample_at dm i = some point ∧
        dm._grid[i]? = some point ∧ point[k]? = some x ∧
        margin_cdf_on_grid dm k i = some v ∧ margin_cdf dm k x = some v := by
  obtain ⟨d0, cache, hd0, _, _, hsample, hempty, hiter, hl, hrows, hfirst⟩ :=
    ctor_calc_iterate S dim m hS hrect
  refine ⟨d0, _, hd0, hempty, hiter, hl, hrows, ?_⟩
  intro i k hi hk
  obtain ⟨point, row, h1, _, h3, _, h5⟩ := hfirst hm i hi
  obtain ⟨x, v, hx, hv, hmv⟩ := h5 k hk
  refine ⟨point, x, v, ?_, ?_, hx, ?_, ?_⟩
  · show d0._mv_sample[i]? = some point
    rw [hsample]
    exact h1
  · show d0._mv_sample[i]? = some point
    rw [hsample]
    exact h1
  · show (match cache[i]? with
      | none => none
      | some row => row[k]?) = some v
    rw [h3]
    exact hv
  · rw [← hmv]
    exact margin_cdf_congr d0
      { set_sample_as_grid d0 with _margin_cdfs_on_grid := cache } rfl rfl k x

theorem vec_le_head (a b : vec_t num_t) (x y : num_t) (h : vec_le a b = true)
    (ha : a[0]? = some x) (hb : b[0]? = some y) : x ≤ y := by
  cases a with
  | nil => simp at ha
  | cons a0 as =>
    cases b with
    | nil => simp at hb
    | cons b0 bs =>
      simp only [List.getElem?_cons_zero, Option.some.injEq] at ha hb
      subst ha
      subst hb
      by_contra hlt
      rw [not_le] at hlt
      simp [vec_le, vec_lt, hlt] at h

theorem sorted_first_le (L : List (vec_t num_t))
    (hsorted : L.Pairwise (fun a b => vec_le a b = true))
    (i j : Nat) (hij : i ≤ j) (hi : i < L.length) (hj : j < L.length) (x y : num_t)
    (hx : (L[i])[0]? = some x) (hy : (L[j])[0]? = some y) : x ≤ y := by
  rcases Nat.eq_or_lt_of_le hij with heq | hlt
  · subst heq
    rw [hx] at hy
    exact (Option.some.inj hy).le
  · exact vec_le_head _ _ x y
      (List.pairwise_iff_getElem.mp hsorted i j hi hj hlt) hx hy

theorem sorted_first_count (L : List (vec_t num_t))
    (hsorted : L.Pairwise (fun a b => vec_le a b = true))
    (hne : ∀ p ∈ L, 1 ≤ p.length)
    (i : Nat) (hi : i < L.length) (x : num_t) (hx : (L[i])[0]? = some x) :
    i + 1 ≤ L.countP (fun p => decide (p.getD 0 0 ≤ x)) := by
  have hsplit : L.countP (fun p => decide (p.getD 0 0 ≤ x))
      = (L.take (i + 1)).countP (fun p => decide (p.getD 0 0 ≤ x))
        + (L.drop (i + 1)).countP (fun p => decide (p.getD 0 0 ≤ x)) := by
    rw [← List.countP_append, List.take_append_drop]
  have hall : (L.take (i + 1)).countP (fun p => decide (p.getD 0 0 ≤ x))
      = (L.take (i + 1)).length := by
    rw [List.countP_eq_length]
    intro p hp
    obtain ⟨t, ht, rfl⟩ := List.mem_take_iff_getElem.mp hp
    have ht' : t < L.length := (lt_min_iff.mp ht).2
    have hti : t ≤ i := Nat.le_of_lt_succ (lt_min_iff.mp ht).1
    have hlen : 0 < (L[t]).length := hne _ (List.getElem_mem ht')
    have h0 : (L[t])[0]? = some ((L[t]).getD 0 0) := by
      rw [List.getD_eq_getElem _ _ hlen, List.getElem?_eq_getElem hlen]
    exact decide_eq_true (sorted_first_le L hsorted t i hti ht' hi _ x h0 hx)
  have hlen : (L.take (i + 1)).length = i + 1 := by
    rw [List.length_take]
    exact min_eq_left hi
  omega

/-- The first-coordinate values in the cache after the constructor,
`set_sample_as_grid()` and one call of `calc_margin_cdfs_on_grid()`: entry `j`
is the number of points whose first coordinate is at most that of the `j`-th
stored point, divided by `n + 1`. -/
theorem ctor_calc_first_margin (S : List (vec_t num_t)) (dim : Nat) (hS : S ≠ [])
    (hrect : ∀ p ∈ S, p.length = dim) (hdim : 1 ≤ dim) :
    ∃ d0 d1, ctor S = some d0 ∧ calc_margin_cdfs_on_grid (set_sample_as_grid d0) = some d1 ∧
      ∀ j (hj : j < (sort S).length), ∃ x, ((sort S)[j])[0]? = some x ∧
        margin_cdf_on_grid d1 0 j
          = some ((((sort S).countP (fun p => decide (p.getD 0 0 ≤ x)) : Nat) : num_t)
              / ((S.length : num_t) + 1)) := by
  obtain ⟨d0, cache, hd0, hdim0, hsize0, hsample, _, hiter, _, _, hfirst⟩ :=
    ctor_calc_iterate S dim 1 hS hrect
  have hperm := sort_perm S
  refine ⟨d0, _, hd0, by simpa using hiter, ?_⟩
  intro j hj
  obtain ⟨point, row, h1, _, h3, _, h5⟩ := hfirst le_rfl j (hperm.length_eq ▸ hj)
  obtain ⟨x, v, hx, hv, hmv⟩ := h5 0 hdim
  have hpoint : point = (sort S)[j] := by
    rw [List.getElem?_eq_getElem hj] at h1
    exact (Option.some.inj h1).symm
  subst hpoint
  refine ⟨x, hx, ?_⟩
  have hval := margin_cdf_eq d0 0 x (by rw [hsize0, hsample, hperm.length_eq])
    (fun p hp => by
      rw [hsample] at hp
      rw [hrect p (hperm.subset hp)]
      exact hdim)
  rw [hmv, hsample, hsize0] at hval
  show (match cache[j]? with
    | none => none
    | some row => row[0]?) = _
  rw [h3]
  show row[0]? = _
  rw [hv, hval]

end cache_lemmas

/-! ## The cache of margin values -/

section cache

open emv_distribution_t

variable {num_t : Type} [LinearOrderedField num_t]

/-- C13: for a non-empty rectangular sample of `n` points, starting from the
empty cache of the constructed object, `set_sample_as_grid()` followed by one
call of `calc_margin_cdfs_on_grid()` leaves a cache of exactly `n` entries, each
of length `dim`, and for every `i < n` and `k < dim` the lookup
`margin_cdf_on_grid(k, i)` has the value of `margin_cdf(k, grid[i][k])`, where
`grid[i]` is `sample_at(i)`. -/
theorem calc_once_fills_cache (S : List (vec_t num_t)) (dim : Nat) (hS : S ≠ [])
    (hrect : ∀ p ∈ S, p.length = dim) :
    ∃ d0 d1, ctor S = some d0 ∧ d0._margin_cdfs_on_grid = [] ∧
      calc_margin_cdfs_on_grid (set_sample_as_grid d0) = some d1 ∧
      d1._margin_cdfs_on_grid.length = S.length ∧
      (∀ row ∈ d1._margin_cdfs_on_grid, row.length = dim) ∧
      ∀ i k, i < S.length → k < dim → ∃ point x v, sample_at d1 i = some point ∧
        d1._grid[i]? = some point ∧ point[k]? = some x ∧
        margin_cdf_on_grid d1 k i = some v ∧ margin_cdf d1 k x = some v := by
  obtain ⟨d0, d1, h1, h2, h3, h4, h5, h6⟩ := ctor_calc_lookup S dim 1 hS hrect le_rfl
  refine ⟨d0, d1, h1, h2, ?_, ?_, h5, h6⟩
  · simpa using h3
  · simpa using h4

/-- Witness of C13: the sample `(2,1), (1,5)` is stored as `(1,5), (2,1)`, and
the cache after one call is `(1/3, 2/3), (2/3, 1/3)`. -/
theorem calc_once_fills_cache_witness :
    ∃ d0 d1 : emv_distribution_t ℚ, ctor [[2, 1], [1, 5]] = some d0 ∧
      calc_margin_cdfs_on_grid (set_sample_as_grid d0) = some d1 ∧
      d1._margin_cdfs_on_grid = [[1 / 3, 2 / 3], [2 / 3, 1 / 3]] := by
  obtain ⟨d0, d1, h1, _, h3, _, _, _⟩ :=
    calc_once_fills_cache [[(2 : ℚ), 1], [1, 5]] 2 (by simp) (by simp)
  refine ⟨d0, d1, h1, h3, ?_⟩
  have hd0 : d0 = { _dim := 2, _grid := [], _margin_cdfs_on_grid := [], _sample_size := 2,
                    _mv_sample := [[1, 5], [2, 1]] } := by
    apply Option.some.inj
    rw [← h1]
    norm_num [ctor, sort, sort_insert, vec_lt]
  subst hd0
  have hd1 : calc_margin_cdfs_on_grid (set_sample_as_grid
      ({ _dim := 2, _grid := [], _margin_cdfs_on_grid := [], _sample_size := 2,
         _mv_sample := [[1, 5], [2, 1]] } : emv_distribution_t ℚ))
      = some { _dim := 2, _grid := [[1, 5], [2, 1]],
               _margin_cdfs_on_grid := [[1 / 3, 2 / 3], [2 / 3, 1 / 3]], _sample_size := 2,
               _mv_sample := [[1, 5], [2, 1]] } := by
    norm_num [set_sample_as_grid, calc_margin_cdfs_on_grid, calc_margin_cdfs_loop,
      calc_margin_cdfs_row, margin_cdf, margin_cdf_loop, List.replicate_succ]
  rw [hd1] at h3
  rw [← Option.some.inj h3]

/-- C19: for a non-empty rectangular sample of `n` points and `m >= 1`, after
`set_sample_as_grid()` and `m` consecutive calls of `calc_margin_cdfs_on_grid()`
with the cache never cleared, every call has stayed inside the bounds of the
cache (the run yields an object), and for every `i < n` and `k < dim` the
lookup `margin_cdf_on_grid(k, i)` has the value of a fresh
`margin_cdf(k, grid[i][k])`. -/
theorem calc_repeated_keeps_lookup (S : List (vec_t num_t)) (dim m : Nat) (hS : S ≠ [])
    (hrect : ∀ p ∈ S, p.length = dim) (hm : 1 ≤ m) :
    ∃ d0 dm, ctor S = some d0 ∧
      (fun o => Option.bind o calc_margin_cdfs_on_grid)^[m] (some (set_sample_as_grid d0))
        = some dm ∧
      ∀ i k, i < S.length → k < dim → ∃ point x v, dm._grid[i]? = some point ∧
        point[k]? = some x ∧ margin_cdf_on_grid dm k i = some v ∧
        margin_cdf dm k x = some v := by
  obtain ⟨d0, dm, h1, _, h3, _, _, h6⟩ := ctor_calc_lookup S dim m hS hrect hm
  refine ⟨d0, dm, h1, h3, ?_⟩
  intro i k hi hk
  obtain ⟨point, x, v, _, hp, hx, hv, hmv⟩ := h6 i k hi hk
  exact ⟨point, x, v, hp, hx, hv, hmv⟩

/-- Witness of C19: the sample `(1,2)` and `m = 3` calls. -/
theorem calc_repeated_keeps_lookup_witness :
    ∃ d0 dm : emv_distribution_t ℚ, ctor [[1, 2]] = some d0 ∧
      (fun o => Option.bind o calc_margin_cdfs_on_grid)^[3] (some (set_sample_as_grid d0))
        = some dm ∧
      ∀ i k, i < [[(1 : ℚ), 2]].length → k < 2 → ∃ point x v, dm._grid[i]? = some point ∧
        point[k]? = some x ∧ margin_cdf_on_grid dm k i = some v ∧
        margin_cdf dm k x = some v :=
  calc_repeated_keeps_lookup [[(1 : ℚ), 2]] 2 3 (by simp) (by simp) (by decide)

/-- C17 fails as stated: for the sample `(1,2)` (so `n = 1`), after
`set_sample_as_grid()` and two calls of `calc_margin_cdfs_on_grid()` the cache
has two entries, but entry `n + 0` is the row of zeros `(0, 0)` and not a copy
of entry `0`, which is `(1/2, 1/2)`. -/
theorem calc_twice_appends_zeros :
    ∃ d0 d1 d2 : emv_distribution_t ℚ, ctor [[1, 2]] = some d0 ∧
      calc_margin_cdfs_on_grid (set_sample_as_grid d0) = some d1 ∧
      calc_margin_cdfs_on_grid d1 = some d2 ∧
      d2._margin_cdfs_on_grid = [[1 / 2, 1 / 2], [0, 0]] ∧
      d2._margin_cdfs_on_grid[1 + 0]? ≠ d2._margin_cdfs_on_grid[0]? := by
  refine ⟨{ _dim := 2, _grid := [], _margin_cdfs_on_grid := [], _sample_size := 1,
            _mv_sample := [[1, 2]] },
          { _dim := 2, _grid := [[1, 2]], _margin_cdfs_on_grid := [[1 / 2, 1 / 2]],
            _sample_size := 1, _mv_sample := [[1, 2]] },
          { _dim := 2, _grid := [[1, 2]], _margin_cdfs_on_grid := [[1 / 2, 1 / 2], [0, 0]],
            _sample_size := 1, _mv_sample := [[1, 2]] }, ?_, ?_, ?_, rfl, ?_⟩
  · norm_num [ctor, sort, sort_insert]
  · norm_num [set_sample_as_grid, calc_margin_cdfs_on_grid, calc_margin_cdfs_loop,
      calc_margin_cdfs_row, margin_cdf, margin_cdf_loop, List.replicate_succ]
  · norm_num [calc_margin_cdfs_on_grid, calc_margin_cdfs_loop,
      calc_margin_cdfs_row, margin_cdf, margin_cdf_loop, List.replicate_succ]
  · norm_num

/-- C17 as amended: on an object with a rectangular sample, a grid of `n`
points of length `dim` and cache rows of length `dim`, each call of
`calc_margin_cdfs_on_grid()` grows the cache by exactly `n` entries.  Starting
from an empty cache, after the second call the cache has `2n` entries: for
`i < n` entry `i` holds the margin values of grid point `i`, and entry `n + i`
is a row of `dim` zeros. -/
theorem calc_twice_cache (d : emv_distribution_t num_t)
    (hsize : d._sample_size = d._mv_sample.length)
    (hrect : ∀ p ∈ d._mv_sample, p.length = d._dim)
    (hgrid : ∀ p ∈ d._grid, p.length = d._dim)
    (hcache : ∀ row ∈ d._margin_cdfs_on_grid, row.length = d._dim) :
    ∃ d1 d2, calc_margin_cdfs_on_grid d = some d1 ∧ calc_margin_cdfs_on_grid d1 = some d2 ∧
      d1._margin_cdfs_on_grid.length = d._margin_cdfs_on_grid.length + d._grid.length ∧
      d2._margin_cdfs_on_grid.length = d1._margin_cdfs_on_grid.length + d._grid.length ∧
      (d._margin_cdfs_on_grid = [] →
        d2._margin_cdfs_on_grid.length = 2 * d._grid.length ∧
        ∀ i, i < d._grid.length →
          (∃ point row, d._grid[i]? = some point ∧ d2._margin_cdfs_on_grid[i]? = some row ∧
            row.length = d._dim ∧ ∀ k x, point[k]? = some x → row[k]? = margin_cdf d2 k x) ∧
          d2._margin_cdfs_on_grid[d._grid.length + i]? = some (List.replicate d._dim 0)) := by
  obtain ⟨cache1, hcall1, hl1, hrows1, _, _⟩ :=
    calc_margin_cdfs_on_grid_spec d hsize hrect hgrid hcache
  obtain ⟨cache2, hcall2, hl2, _, hmid2, hhigh2⟩ :=
    calc_margin_cdfs_on_grid_spec ({ d with _margin_cdfs_on_grid := cache1 }) hsize hrect hgrid
      hrows1
  refine ⟨_, _, hcall1, hcall2, hl1, hl2, ?_⟩
  intro hempty
  have hl1' : cache1.length = d._grid.length := by
    rw [hl1, hempty, List.length_nil, Nat.zero_add]
  refine ⟨?_, ?_⟩
  · show cache2.length = 2 * d._grid.length
    rw [hl2]
    show cache1.length + d._grid.length = 2 * d._grid.length
    omega
  · intro i hi
    refine ⟨?_, ?_⟩
    · obtain ⟨point, row, h1, h2, h3, h4⟩ := hmid2 i hi
      refine ⟨point, row, h1, h2, h3, ?_⟩
      intro k x hx
      rw [h4 k x hx]
      exact (margin_cdf_cache ({ d with _margin_cdfs_on_grid := cache1 }) cache2 k x).symm
    · show cache2[d._grid.length + i]? = some (List.replicate d._dim 0)
      rw [hhigh2 (d._grid.length + i) (Nat.le_add_right _ _)]
      show (cache1 ++ List.replicate d._grid.length (List.replicate d._dim (0 : num_t)))[
        d._grid.length + i]? = some (List.replicate d._dim 0)
      rw [List.getElem?_append_right (by omega), hl1', Nat.add_sub_cancel_left,
        List.getElem?_replicate_of_lt hi]

/-- Witness of C17 as amended: the object of the sample `(1,2)` with the sample
as grid and an empty cache. -/
theorem calc_twice_cache_witness :
    ∃ d1 d2 : emv_distribution_t ℚ,
      calc_margin_cdfs_on_grid
        ({ _dim := 2, _grid := [[1, 2]], _margin_cdfs_on_grid := [], _sample_size := 1,
           _mv_sample := [[1, 2]] } : emv_distribution_t ℚ) = some d1 ∧
      calc_margin_cdfs_on_grid d1 = some d2 ∧
      d1._margin_cdfs_on_grid.length = 1 ∧ d2._margin_cdfs_on_grid.length = 2 ∧
      d2._margin_cdfs_on_grid[1]? = some [0, 0] := by
  obtain ⟨d1, d2, h1, h2, h3, _, h5⟩ := calc_twice_cache
    ({ _dim := 2, _grid := [[1, 2]], _margin_cdfs_on_grid := [], _sample_size := 1,
       _mv_sample := [[1, 2]] } : emv_distribution_t ℚ) rfl (by simp) (by simp) (by simp)
  obtain ⟨h6, h7⟩ := h5 rfl
  refine ⟨d1, d2, h1, h2, by simpa using h3, by simpa using h6, ?_⟩
  have h8 := (h7 0 (by simp)).2
  simpa [List.replicate_succ] using h8

/-- C20: for a non-empty rectangular sample of `n` points with `dim >= 1`,
after the constructor, `set_sample_as_grid()` and one call of
`calc_margin_cdfs_on_grid()`, the cached values of the first coordinate follow
the sort order, `margin_cdf_on_grid(0, i) <= margin_cdf_on_grid(0, j)` for
`i <= j < n`, and `margin_cdf_on_grid(0, i) >= (i + 1) / (n + 1)` for `i < n`. -/
theorem cached_first_margin_sorted (S : List (vec_t num_t)) (dim : Nat) (hS : S ≠ [])
    (hrect : ∀ p ∈ S, p.length = dim) (hdim : 1 ≤ dim) :
    ∃ d0 d1, ctor S = some d0 ∧ calc_margin_cdfs_on_grid (set_sample_as_grid d0) = some d1 ∧
      (∀ i j, i ≤ j → j < S.length → ∃ a b, margin_cdf_on_grid d1 0 i = some a ∧
        margin_cdf_on_grid d1 0 j = some b ∧ a ≤ b) ∧
      (∀ i, i < S.length → ∃ a, margin_cdf_on_grid d1 0 i = some a ∧
        ((i : num_t) + 1) / ((S.length : num_t) + 1) ≤ a) := by
  obtain ⟨d0, d1, hd0, hd1, hval⟩ := ctor_calc_first_margin S dim hS hrect hdim
  have hperm := sort_perm S
  have hpos : (0 : num_t) < (S.length : num_t) + 1 := by positivity
  refine ⟨d0, d1, hd0, hd1, ?_, ?_⟩
  · intro i j hij hj
    have hj' : j < (sort S).length := by rw [hperm.length_eq]; exact hj
    obtain ⟨x, hx, hvi⟩ := hval i (by omega)
    obtain ⟨y, hy, hvj⟩ := hval j hj'
    refine ⟨_, _, hvi, hvj, ?_⟩
    have hxy : x ≤ y :=
      sorted_first_le (sort S) (sort_sorted S) i j hij (by omega) hj' x y hx hy
    apply div_le_div_of_nonneg_right _ hpos.le
    apply Nat.cast_le.mpr
    apply List.countP_mono_left
    intro p _ hp
    simp only [decide_eq_true_eq] at hp ⊢
    exact hp.trans hxy
  · intro i hi
    have hi' : i < (sort S).length := by rw [hperm.length_eq]; exact hi
    obtain ⟨x, hx, hvi⟩ := hval i hi'
    refine ⟨_, hvi, ?_⟩
    apply div_le_div_of_nonneg_right _ hpos.le
    have hcount := sorted_first_count (sort S) (sort_sorted S)
      (fun p hp => by rw [hrect p (hperm.subset hp)]; exact hdim) i hi' x hx
    have hcast : ((i + 1 : Nat) : num_t)
        ≤ (((sort S).countP (fun p => decide (p.getD 0 0 ≤ x)) : Nat) : num_t) :=
      Nat.cast_le.mpr hcount
    rw [Nat.cast_add, Nat.cast_one] at hcast
    exact hcast

/-- Witness of C20: the sample `(2,1), (1,5)`, stored as `(1,5), (2,1)`. -/
theorem cached_first_margin_sorted_witness :
    ∃ d0 d1 : emv_distribution_t ℚ, ctor [[2, 1], [1, 5]] = some d0 ∧
      calc_margin_cdfs_on_grid (set_sample_as_grid d0) = some d1 ∧
      (∀ i j, i ≤ j → j < [[(2 : ℚ), 1], [1, 5]].length → ∃ a b,
        margin_cdf_on_grid d1 0 i = some a ∧ margin_cdf_on_grid d1 0 j = some b ∧ a ≤ b) ∧
      (∀ i, i < [[(2 : ℚ), 1], [1, 5]].length → ∃ a, margin_cdf_on_grid d1 0 i = some a ∧
        ((i : ℚ) + 1) / (([[(2 : ℚ), 1], [1, 5]].length : ℚ) + 1) ≤ a) :=
  cached_first_margin_sorted [[(2 : ℚ), 1], [1, 5]] 2 (by simp) (by simp) (by decide)

end cache

/-! ## The Archimedean copula -/

section copula

open acopula_t

theorem call_loop_eq {num_t : Type} [LinearOrderedField num_t] (c : acopula_t num_t)
    (x : vec_t num_t) (todo i : Nat) (a : num_t) (h : i + todo ≤ x.length) :
    call_loop c x todo i a
      = some (a + Finset.sum (Finset.range todo) (fun j => c.gen (x.getD (i + j) 0))) := by
  induction todo generalizing i a with
  | zero => simp [call_loop]
  | succ n ih =>
    have hi : i < x.length := by omega
    rw [call_loop, List.getElem?_eq_getElem hi]
    simp only
    have h0 : x.getD (i + 0) 0 = x[i] := by
      rw [Nat.add_zero, List.getD_eq_getElem _ _ hi]
    have hs : ∀ j, x.getD (i + 1 + j) 0 = x.getD (i + (j + 1)) 0 := by
      intro j
      rw [Nat.add_assoc, Nat.add_comm 1 j]
    rw [ih (i + 1) _ (by omega), Finset.sum_range_succ', h0]
    simp only [hs]
    congr 1
    ring

theorem call_eq {num_t : Type} [LinearOrderedField num_t] (c : acopula_t num_t)
    (x : vec_t num_t) (hlen : x.length = c._dim) (hcheck : c.check x = true) :
    call c x
      = some (c.inv_gen (Finset.sum (Finset.range c._dim) (fun i => c.gen (x.getD i 0)))) := by
  rw [call, if_pos hcheck, call_loop_eq c x c._dim 0 0 (by omega)]
  simp only [zero_add]

/-- C14: for an Archimedean copula of dimension `d` with generator `gen` and
inverse generator `inv_gen`, and a point `x` of length `d` that `check` accepts,
`call(x)` is `inv_gen` of the sum of `gen(x[i])` over `i = 0, ..., d - 1`. -/
theorem call_is_inv_gen_of_sum {num_t : Type} [LinearOrderedField num_t] (c : acopula_t num_t)
    (x : vec_t num_t) (hlen : x.length = c._dim) (hcheck : c.check x = true) :
    call c x
      = some (c.inv_gen (Finset.sum (Finset.range c._dim) (fun i => c.gen (x.getD i 0)))) :=
  call_eq c x hlen hcheck

/-- Witness of C14: dimension `2`, `gen(t) = 2 t`, `inv_gen(t) = t + 1` and the
point `(1, 2)`: `call` returns `(2 + 4) + 1`. -/
theorem call_is_inv_gen_of_sum_witness :
    call ({ _dim := 2, check := fun _ => true, gen := fun t => 2 * t,
            inv_gen := fun t => t + 1 } : acopula_t ℚ) [1, 2] = some 7 := by
  have h := call_is_inv_gen_of_sum
    ({ _dim := 2, check := fun _ => true, gen := fun t => 2 * t,
       inv_gen := fun t => t + 1 } : acopula_t ℚ) [1, 2] rfl rfl
  rw [h]
  norm_num [Finset.sum_range_succ]

/-- C15: over the real numbers, with `gen(t) = -ln t` and `inv_gen(t) = e^(-t)`,
for a point `u` of length `d` that `check` accepts and whose coordinates all lie
in `(0, 1]`, `call(u)` is the product `u[0] * ... * u[d-1]`. -/
theorem call_toy_generator_is_product (c : acopula_t ℝ) (u : vec_t ℝ)
    (hgen : c.gen = fun t => -Real.log t) (hinv : c.inv_gen = fun t => Real.exp (-t))
    (hlen : u.length = c._dim) (hcheck : c.check u = true)
    (hu : ∀ i, i < c._dim → 0 < u.getD i 0 ∧ u.getD i 0 ≤ 1) :
    call c u = some (Finset.prod (Finset.range c._dim) (fun i => u.getD i 0)) := by
  rw [call_eq c u hlen hcheck, hgen, hinv]
  simp only [Finset.sum_neg_distrib, neg_neg]
  rw [Real.exp_sum]
  congr 1
  apply Finset.prod_congr rfl
  intro i hi
  exact Real.exp_log (hu i (Finset.mem_range.mp hi)).1

/-- Witness of C15: dimension `2` and the point `(1/2, 1)`. -/
theorem call_toy_generator_is_product_witness :
    call ({ _dim := 2, check := fun x => x.length == 2, gen := fun t => -Real.log t,
            inv_gen := fun t => Real.exp (-t) } : acopula_t ℝ) [1 / 2, 1]
      = some (Finset.prod (Finset.range 2) (fun i => ([1 / 2, 1] : vec_t ℝ).getD i 0)) :=
  call_toy_generator_is_product
    ({ _dim := 2, check := fun x => x.length == 2, gen := fun t => -Real.log t,
       inv_gen := fun t => Real.exp (-t) } : acopula_t ℝ) [1 / 2, 1] rfl rfl rfl rfl
    (by
      intro i hi
      have hi' : i = 0 ∨ i = 1 := by
        have : i < 2 := hi
        omega
      rcases hi' with rfl | rfl <;> norm_num)

end copula

/-! ## The export of the joint CDF on the grid -/

section cdf_export

open emv_distribution_t

theorem export_cdf_row_eq {num_t : Type} (shown : num_t → num_t) (point : vec_t num_t)
    (todo k : Nat) (line : List (field_t num_t)) (h : k + todo ≤ point.length) :
    export_cdf_row shown point todo k line
      = some (line ++ (((point.drop k).take todo).map shown).map field_t.number) := by
  induction todo generalizing k line with
  | zero => simp [export_cdf_row]
  | succ n ih =>
    have hk : k < point.length := by omega
    rw [export_cdf_row, List.getElem?_eq_getElem hk]
    simp only
    rw [ih (k + 1) _ (by omega), List.drop_eq_getElem_cons hk, List.take_succ_cons,
      List.map_cons, List.map_cons, List.append_assoc, List.singleton_append]

theorem default_precision_one : default_precision 1 = 1 := by
  have h1 : ((1 : ℚ) = 0) = False := by norm_num
  have hlog : Int.log 10 |(1 : ℚ)| = 0 := by simp
  have hf : ⌊((1 : ℚ) / 10 ^ ((0 : ℤ) - 5))⌋ = 100000 := by
    norm_num [Int.floor_eq_iff]
  simp only [default_precision, h1, if_false, hlog, hf]
  norm_num

theorem default_precision_third : default_precision (1 / 3) = 333333 / 1000000 := by
  have h1 : ((1 / 3 : ℚ) = 0) = False := by norm_num
  have hlog : Int.log 10 |(1 / 3 : ℚ)| = -1 := by
    rw [abs_of_pos (by norm_num), Int.log_of_right_le_one _ (by norm_num)]
    norm_num [Nat.clog]
  have hf : ⌊((1 / 3 : ℚ) / 10 ^ ((-1 : ℤ) - 5))⌋ = 333333 := by
    norm_num [Int.floor_eq_iff]
  simp only [default_precision, h1, if_false, hlog, hf]
  norm_num

variable {num_t : Type} [LinearOrderedField num_t]

theorem export_cdf_loop_spec (shown : num_t → num_t) (d : emv_distribution_t num_t)
    (hgrid : ∀ p ∈ d._grid, p.length = d._dim)
    (hcdf : ∀ p ∈ d._grid, ∃ v, cdf d p = some v)
    (todo i : Nat) (lines : List (List (field_t num_t)))
    (hi : i + todo ≤ d._grid.length) :
    ∃ lines', export_cdf_loop shown d todo i lines = some lines' ∧
      lines'.length = lines.length + todo ∧
      (∀ j, j < lines.length → lines'[j]? = lines[j]?) ∧
      (∀ t, t < todo → ∃ point v, d._grid[i + t]? = some point ∧ cdf d point = some v ∧
        lines'[lines.length + t]?
          = some ((point.map shown).map field_t.number ++ [field_t.number (shown v)])) := by
  induction todo generalizing i lines with
  | zero =>
    refine ⟨lines, rfl, rfl, fun _ _ => rfl, ?_⟩
    intro t ht
    omega
  | succ n ih =>
    have hilt : i < d._grid.length := by omega
    have hmem : d._grid[i] ∈ d._grid := List.getElem_mem hilt
    have hlen : (d._grid[i]).length = d._dim := hgrid _ hmem
    obtain ⟨v, hv⟩ := hcdf _ hmem
    have hrow : export_cdf_row shown d._grid[i] d._dim 0 []
        = some (((d._grid[i]).map shown).map field_t.number) := by
      rw [export_cdf_row_eq _ _ _ _ _ (by omega), List.drop_zero, ← hlen, List.take_length,
        List.nil_append]
    obtain ⟨lines', hrun, hl, hlow, hnew⟩ :=
      ih (i + 1)
        (lines ++ [((d._grid[i]).map shown).map field_t.number ++ [field_t.number (shown v)]])
        (by omega)
    have hl0 : (lines
        ++ [((d._grid[i]).map shown).map field_t.number ++ [field_t.number (shown v)]]).length
        = lines.length + 1 := by
      rw [List.length_append, List.length_singleton]
    refine ⟨lines', ?_, ?_, ?_, ?_⟩
    · rw [export_cdf_loop, List.getElem?_eq_getElem hilt]
      simp only
      rw [hrow]
      simp only
      rw [hv]
      exact hrun
    · rw [hl, hl0]
      omega
    · intro j hj
      rw [hlow j (by omega), List.getElem?_append_left hj]
    · intro t ht
      cases t with
      | zero =>
        refine ⟨d._grid[i], v, List.getElem?_eq_getElem hilt, hv, ?_⟩
        rw [Nat.add_zero, hlow lines.length (by omega), List.getElem?_append_right le_rfl,
          Nat.sub_self]
        rfl
      | succ t' =>
        obtain ⟨point, w, h1, h2, h3⟩ := hnew t' (by omega)
        refine ⟨point, w, ?_, h2, ?_⟩
        · rw [← h1]
          congr 1
          omega
        · rw [← h3, hl0]
          congr 1
          omega

/-- The file `export_cdf` writes on an object with a non-empty rectangular
sample and a grid of points of length `_dim`, when the file opens: line `i`
holds what the stream writes for the coordinates of grid point `i` and for its
`cdf` value. -/
theorem export_cdf_spec (shown : num_t → num_t) (fs : String → Except String Unit)
    (d : emv_distribution_t num_t)
    (path_to_data : String) (hopen : fs path_to_data = Except.ok ())
    (hsize : d._sample_size = d._mv_sample.length) (hne : d._sample_size ≠ 0)
    (hrect : ∀ p ∈ d._mv_sample, p.length = d._dim)
    (hgrid : ∀ p ∈ d._grid, p.length = d._dim) :
    ∃ file, export_cdf shown fs d path_to_data = some (result.ok (), some file) ∧
      file.unterminated = false ∧ file.lines.length = d._grid.length ∧
      ∀ i, i < d._grid.length → ∃ point v line, d._grid[i]? = some point ∧
        cdf d point = some v ∧ file.lines[i]? = some line ∧
        line = (point.map shown ++ [shown v]).map field_t.number ∧
        line.length = d._dim + 1 ∧
        read_first_row line [] = point.map shown ++ [shown v] := by
  obtain ⟨lines, hrun, hl, _, hnew⟩ := export_cdf_loop_spec shown d hgrid
    (fun p hp => ⟨_, cdf_eq d p hsize hne hrect (hgrid p hp)⟩) d._grid.length 0 [] (by omega)
  refine ⟨{ lines := lines, unterminated := false }, ?_, rfl, ?_, ?_⟩
  · rw [export_cdf, hopen]
    simp only
    rw [hrun]
  · simpa using hl
  · intro i hi
    obtain ⟨point, v, h1, h2, h3⟩ := hnew i hi
    rw [Nat.zero_add] at h1
    rw [List.length_nil, Nat.zero_add] at h3
    have hlen : point.length = d._dim := hgrid point (List.mem_iff_getElem?.mpr ⟨i, h1⟩)
    have hmap : (point.map shown).map field_t.number ++ [field_t.number (shown v)]
        = (point.map shown ++ [shown v]).map field_t.number := by
      rw [List.map_append, List.map_singleton]
    rw [hmap] at h3
    refine ⟨point, v, _, h1, h2, h3, rfl, ?_, ?_⟩
    · rw [List.length_map, List.length_append, List.length_map, List.length_singleton, hlen]
    · rw [read_first_row_numbers, List.nil_append]

/-- C16 fails as stated: for the sample `(1), (2), (3)` taken as grid, with the
stream in its default state, `cdf(grid[0])` is `1/3` but the first line written
is `1 0.333333`; reading it back gives the value `333333/1000000`, which is not
equal to a fresh `cdf` call on the coordinates. -/
theorem export_cdf_rounds_cdf_value :
    ∃ (d0 : emv_distribution_t ℚ) (file : file_t ℚ), ctor [[1], [2], [3]] = some d0 ∧
      export_cdf default_precision (fun _ => Except.ok ()) (set_sample_as_grid d0) "cdf.txt"
        = some (result.ok (), some file) ∧
      (set_sample_as_grid d0)._grid[0]? = some [1] ∧
      cdf (set_sample_as_grid d0) [1] = some (1 / 3) ∧
      file.lines[0]? = some [field_t.number 1, field_t.number (333333 / 1000000)] ∧
      read_first_row [field_t.number (1 : ℚ), field_t.number (333333 / 1000000)] []
        = [1, 333333 / 1000000] ∧
      (333333 / 1000000 : ℚ) ≠ 1 / 3 := by
  have hd0 : ctor [[(1 : ℚ)], [2], [3]] = some
      { _dim := 1, _grid := [], _margin_cdfs_on_grid := [], _sample_size := 3,
        _mv_sample := [[1], [2], [3]] } := by
    norm_num [ctor, sort, sort_insert, vec_lt]
  have hcdf : cdf
      ({ _dim := 1, _grid := [[1], [2], [3]], _margin_cdfs_on_grid := [], _sample_size := 3,
         _mv_sample := [[1], [2], [3]] } : emv_distribution_t ℚ) [1] = some (1 / 3) := by
    norm_num [cdf, cdf_loop, cdf_ok]
  obtain ⟨file, hfile, _, _, hrows⟩ := export_cdf_spec default_precision
    (fun _ => Except.ok ())
    ({ _dim := 1, _grid := [[1], [2], [3]], _margin_cdfs_on_grid := [], _sample_size := 3,
       _mv_sample := [[1], [2], [3]] } : emv_distribution_t ℚ) "cdf.txt" rfl rfl (by decide)
    (by simp) (by simp)
  obtain ⟨point, v, line, hp, hv, hline, hltext, _, _⟩ := hrows 0 (by simp)
  have hpoint : point = [1] := by
    simp only [List.getElem?_cons_zero, Option.some.injEq] at hp
    exact hp.symm
  subst hpoint
  rw [hcdf] at hv
  have hv' : v = 1 / 3 := (Option.some.inj hv).symm
  subst hv'
  refine ⟨_, file, hd0, hfile, rfl, hcdf, ?_, ?_, by norm_num⟩
  · rw [hline, hltext]
    simp only [List.map_cons, List.map_nil, List.cons_append, List.nil_append,
      default_precision_one, default_precision_third]
  · simp [read_first_row]

/-- C16 as amended: on an object with a grid of `g` points of length `dim` (and
a non-empty rectangular sample, so that `cdf` is defined), when the file opens
`export_cdf` succeeds and writes exactly `g` lines in grid order; line `i` has
`dim + 1` fields, what the stream writes for the coordinates of `grid[i]`
followed by what it writes for `cdf(grid[i])`.  Reading the line back gives the
numbers that this text denotes; they are the coordinates and the `cdf` value
themselves when the conversion to text leaves these unchanged. -/
theorem export_cdf_rows (shown : num_t → num_t) (fs : String → Except String Unit)
    (d : emv_distribution_t num_t)
    (path_to_data : String) (hopen : fs path_to_data = Except.ok ())
    (hsize : d._sample_size = d._mv_sample.length) (hne : d._sample_size ≠ 0)
    (hrect : ∀ p ∈ d._mv_sample, p.length = d._dim)
    (hgrid : ∀ p ∈ d._grid, p.length = d._dim) :
    ∃ file, export_cdf shown fs d path_to_data = some (result.ok (), some file) ∧
      file.unterminated = false ∧ file.lines.length = d._grid.length ∧
      ∀ i, i < d._grid.length → ∃ point v line, d._grid[i]? = some point ∧
        cdf d point = some v ∧ file.lines[i]? = some line ∧
        line = (point.map shown ++ [shown v]).map field_t.number ∧
        line.length = d._dim + 1 ∧
        read_first_row line [] = point.map shown ++ [shown v] ∧
        ((∀ x ∈ point, shown x = x) → shown v = v →
          read_first_row line [] = point ++ [v]) := by
  obtain ⟨file, h1, h2, h3, h4⟩ :=
    export_cdf_spec shown fs d path_to_data hopen hsize hne hrect hgrid
  refine ⟨file, h1, h2, h3, ?_⟩
  intro i hi
  obtain ⟨point, v, line, h5, h6, h7, h8, h9, h10⟩ := h4 i hi
  refine ⟨point, v, line, h5, h6, h7, h8, h9, h10, ?_⟩
  intro hfix hv
  rw [h10, hv, List.map_congr_left hfix, List.map_id']

/-- Witness of C16 as amended: the sample `(1,5), (2,1)` taken as grid, written
by a stream in its default state; two lines are written. -/
theorem export_cdf_rows_witness :
    ∃ file, export_cdf default_precision (fun _ => Except.ok ())
        ({ _dim := 2, _grid := [[1, 5], [2, 1]], _margin_cdfs_on_grid := [], _sample_size := 2,
           _mv_sample := [[1, 5], [2, 1]] } : emv_distribution_t ℚ) "cdf.txt"
        = some (result.ok (), some file) ∧ file.lines.length = 2 := by
  obtain ⟨file, h1, _, h3, _⟩ := export_cdf_rows default_precision (fun _ => Except.ok ())
    ({ _dim := 2, _grid := [[1, 5], [2, 1]], _margin_cdfs_on_grid := [], _sample_size := 2,
       _mv_sample := [[1, 5], [2, 1]] } : emv_distribution_t ℚ) "cdf.txt" rfl rfl (by decide)
    (by simp) (by simp)
  exact ⟨file, h1, by simpa using h3⟩

end cdf_export

/-! ## Empty rows in the table -/

section empty_rows

open emv_distribution_t

variable {num_t : Type} [LinearOrderedField num_t]

theorem read_ragged_lines (fs : String → Except String (file_t num_t))
    (path_to_data : String) (file : file_t num_t) (first : vec_t num_t)
    (pre : List (vec_t num_t)) (bad : vec_t num_t) (post : List (List (field_t num_t)))
    (hfs : fs path_to_data = Except.ok file)
    (hlines : file.lines = first.map field_t.number ::
      (pre.map (fun r => r.map field_t.number) ++ bad.map field_t.number :: post))
    (hpre : ∀ r ∈ pre, r.length = first.length) (hbad : bad.length ≠ first.length) :
    emv_distribution_t.read fs path_to_data
      = some (result.error
          (path_to_data ++ ": " ++
            (if first.length < bad.length then "Some row has more columns than the first one."
             else "Some row has less columns than the first one."))
          error_t.io_error) := by
  obtain ⟨s1, hget, hl, hf, he⟩ := getline_cons
    ({ lines := file.lines, unterminated := file.unterminated, eofbit := false,
       failbit := false } : fstream num_t) (first.map field_t.number) _ rfl rfl hlines
  have hrec := read_rows_ragged path_to_data pre bad post s1 first [] hf
    (fun hb => by
      have h0 := he hb
      cases pre <;> simp at h0) hl hpre hbad
  simp only [emv_distribution_t.read, hfs, hget, read_first_row_numbers, List.nil_append, hrec]

/-- C18 fails as stated: on the table made of an empty row followed by the row
`1 2`, `read` does not take `dim() = 2` from the first non-empty row; the empty
first row fixes the column count `0` and the next row is rejected. -/
theorem read_empty_first_row_fails :
    emv_distribution_t.read
        (fun _ => Except.ok
          { lines := [[], [field_t.number (1 : ℚ), field_t.number 2]],
            unterminated := false }) "data.txt"
      = some (result.error "data.txt: Some row has more columns than the first one."
          error_t.io_error) ∧
    ¬ ∃ d : emv_distribution_t ℚ, emv_distribution_t.read
        (fun _ => Except.ok
          { lines := [[], [field_t.number (1 : ℚ), field_t.number 2]],
            unterminated := false }) "data.txt" = some (result.ok d) := by
  have h := read_ragged_lines
    (fun _ => Except.ok
      { lines := [[], [field_t.number (1 : ℚ), field_t.number 2]], unterminated := false })
    "data.txt" _ [] [] [1, 2] [] rfl rfl (by simp) (by decide)
  have h' : emv_distribution_t.read
        (fun _ => Except.ok
          { lines := [[], [field_t.number (1 : ℚ), field_t.number 2]],
            unterminated := false }) "data.txt"
      = some (result.error "data.txt: Some row has more columns than the first one."
          error_t.io_error) := h
  refine ⟨h', ?_⟩
  rintro ⟨d, hd⟩
  rw [h'] at hd
  simp at hd

/-- C18 as amended: the column count is taken from the first row, empty or not.
On a table that starts with `k + 1` empty rows followed by a row of `w >= 1`
numeric fields, `read` fails with the error of kind `io_error` "Some row has
more columns than the first one." and returns no distribution, whatever the
rows after it. -/
theorem read_leading_empty_rows (fs : String → Except String (file_t num_t))
    (path_to_data : String) (file : file_t num_t) (k : Nat) (row : vec_t num_t)
    (post : List (List (field_t num_t)))
    (hfs : fs path_to_data = Except.ok file)
    (hlines : file.lines
      = [] :: (List.replicate k [] ++ row.map field_t.number :: post))
    (hrow : 1 ≤ row.length) :
    emv_distribution_t.read fs path_to_data
      = some (result.error
          (path_to_data ++ ": " ++ "Some row has more columns than the first one.")
          error_t.io_error) := by
  have hpre : (List.replicate k ([] : vec_t num_t)).map (fun r => r.map field_t.number)
      = List.replicate k [] := by
    rw [List.map_replicate, List.map_nil]
  have h := read_ragged_lines fs path_to_data file [] (List.replicate k []) row post hfs
    (by rw [hpre, List.map_nil]; exact hlines)
    (fun r hr => by rw [(List.mem_replicate.mp hr).2])
    (by rw [List.length_nil]; omega)
  rw [h, List.length_nil, if_pos (by omega)]

/-- Witness of C18 as amended: two empty rows, then the row `1 2`, then the row
`3 4`. -/
theorem read_leading_empty_rows_witness :
    emv_distribution_t.read
        (fun _ => Except.ok
          { lines := [[], [], [field_t.number (1 : ℚ), field_t.number 2],
                      [field_t.number 3, field_t.number 4]],
            unterminated := false }) "data.txt"
      = some (result.error ("data.txt" ++ ": " ++ "Some row has more columns than the first one.")
          error_t.io_error) :=
  read_leading_empty_rows
    (fun _ => Except.ok
      { lines := [[], [], [field_t.number (1 : ℚ), field_t.number 2],
                  [field_t.number 3, field_t.number 4]],
        unterminated := false })
    "data.txt" _ 1 [1, 2] [[field_t.number 3, field_t.number 4]] rfl rfl (by decide)

end empty_rows

end cst
